import Mathlib

/-!
Verification development for the CCM (Canonical Code Model) analyzer.

This file gives a shallow embedding of the graph-construction core of
`enhanced_analyzer.py` (the `CCMConverter` class and the per-file content
gate of `ComprehensiveMultiLanguageAnalyzer.analyze_file`), and proves the
behavioral claims about it.

Modelling conventions:
* Python strings are Lean `String`, Python `None`-able strings are
  `Option String`; Python string truthiness (`if s:`) is the emptiness test.
* Python dicts used as symbol tables (`node_lookup`, `module_nodes`,
  `class_nodes`, `function_nodes`) are functions `String -> Option Nat`
  mapping a key to the position, in creation order, of the node it denotes;
  insertion is pointwise update (later insertions overwrite, exactly the
  dict behavior the converter relies on).
* The id strings produced by `CCMConverter._generate_id` have the shape
  `kind_NNNNNN` where `NNNNNN` is the zero-padded value of the converter
  counter after its increment.  Internally we carry an id as its
  `(kind, counter-value)` pair (`NodeRef`) and render the concrete string
  at the end of the conversion, with the initial counter value of the
  converter as offset (a fresh converter has counter 0).  The rendered
  string is never empty, so testing truthiness of a rendered id is the
  same as testing that resolution succeeded (lemma `render_ne_empty`).
* The floating-point `resolution_rate` is modelled exactly, in `Rat`.
-/

/-! ## Generic list and string helpers -/

/-- Update the element at position `i` of a list in place (identity when out
of range).  Models a Python in-place mutation of one object in a list. -/
def modifyIdx (f : α → α) : Nat → List α → List α
  | _, [] => []
  | 0, x :: xs => f x :: xs
  | n + 1, x :: xs => x :: modifyIdx f n xs

/-- Pointwise update of a `String`-keyed table, the model of one Python
dict assignment `d[k] = v`. -/
def updateMap (m : String → Option Nat) (k : String) (v : Nat) : String → Option Nat :=
  fun x => if x = k then some v else m x

/-- Zero-pad a natural number to at least six digits: the `{:06d}` format
used by `CCMConverter._generate_id`. -/
def pad6 (n : Nat) : String :=
  let s := toString n
  String.mk (List.replicate (6 - s.length) '0') ++ s

/-- The whitespace characters removed by Python `str.strip()` (for the
ASCII inputs this analyzer deals with). -/
def isPyWhitespace (c : Char) : Bool :=
  c = ' ' || c = '\t' || c = '\n' || c = '\r' || c = '\x0b' || c = '\x0c'

/-- Python `str.strip()`: drop leading and trailing whitespace only. -/
def pythonStrip (s : String) : String :=
  String.mk (((s.data.dropWhile isPyWhitespace).reverse.dropWhile isPyWhitespace).reverse)

/-- Number of non-whitespace characters of a string (used to state claim
C6, which speaks about non-whitespace characters). -/
def count_non_ws (s : String) : Nat :=
  (s.data.filter (fun c => !isPyWhitespace c)).length

/-- Drop the first `n` characters of a string: Python slicing `s[n:]`. -/
def stringDrop (s : String) (n : Nat) : String :=
  String.mk (s.data.drop n)

/-- Substring test on character lists. -/
def listContainsSub [DecidableEq α] (hay needle : List α) : Bool :=
  hay.tails.any (fun t => needle.isPrefixOf t)

/-- Python `needle in hay` for strings. -/
def strContainsSub (hay needle : String) : Bool :=
  listContainsSub hay.data needle.data

/-- Replace every occurrence of a nonempty pattern, left to right: Python
`str.replace` (the analyzer only ever calls it with nonempty patterns).
The recursion is structural on a fuel argument so that concrete inputs
evaluate inside the kernel; every step consumes at least one character, so
a fuel of one more than the input length never runs out. -/
def replaceAll (pat rep : List Char) : Nat → List Char → List Char
  | 0, l => l
  | _ + 1, [] => []
  | fuel + 1, c :: rest =>
    if pat ≠ [] ∧ pat.isPrefixOf (c :: rest) then
      rep ++ replaceAll pat rep fuel (rest.drop (pat.length - 1))
    else
      c :: replaceAll pat rep fuel rest

/-- Python `str.replace` on `String`. -/
def strReplace (s pat rep : String) : String :=
  String.mk (replaceAll pat.data rep.data (s.data.length + 1) s.data)

/-- Python `str.split(sep)` for a nonempty separator, by a left-to-right
scan over the characters, with the same fuel discipline as `replaceAll`. -/
def splitOnList (sep : List Char) : Nat → List Char → List Char → List (List Char)
  | 0, l, acc => [acc.reverse ++ l]
  | _ + 1, [], acc => [acc.reverse]
  | fuel + 1, c :: rest, acc =>
    if sep ≠ [] ∧ sep.isPrefixOf (c :: rest) then
      acc.reverse :: splitOnList sep fuel (rest.drop (sep.length - 1)) []
    else
      splitOnList sep fuel rest (c :: acc)

/-- Python `str.split(sep)` on `String` (the separators used by the
analyzer are all nonempty). -/
def strSplitOn (s sep : String) : List String :=
  (splitOnList sep.data (s.data.length + 1) s.data []).map String.mk

/-- Python `needle.startswith(...)`, on the character lists. -/
def strStartsWith (s pre : String) : Bool :=
  pre.data.isPrefixOf s.data

/-- Python `c in s` for a single character. -/
def strContainsChar (s : String) (c : Char) : Bool :=
  s.data.contains c

/-- ASCII lowercasing, the effect of Python `str.lower()` on the
identifier-like strings this analyzer handles. -/
def strToLower (s : String) : String :=
  String.mk (s.data.map (fun c =>
    if 65 ≤ c.toNat ∧ c.toNat ≤ 90 then Char.ofNat (c.toNat + 32) else c))

/-- Python `s.split(sep)[-1]` for a dotted name. -/
def last_dot_segment (s : String) : String :=
  (strSplitOn s ".").getLastD ""

/-- Python `s.split('=', 1)`: split at the first equals sign only. -/
def splitFirstEq (s : String) : String × Option String :=
  let pre := s.data.takeWhile (fun c => c ≠ '=')
  let rest := s.data.dropWhile (fun c => c ≠ '=')
  match rest with
  | [] => (s, none)
  | _ :: tl => (String.mk pre, some (String.mk tl))

/-- Truthiness of a Python optional string (`None` and `""` are falsy). -/
def truthyO (o : Option String) : Bool :=
  match o with
  | none => false
  | some s => !(s = "")

/-! ## CCM enumerations (the `CCMNodeType`, `CCMVisibility`, `CCMModifier`
Python enums) -/

inductive CCMNodeType where
  | MODULE
  | CLASS
  | INTERFACE
  | FUNCTION
  | METHOD
  | CONSTRUCTOR
  | PROPERTY
  | VARIABLE
  | PARAMETER
  | COMMENT
  | IMPORT
  | EXPORT
  deriving DecidableEq, Repr

inductive CCMVisibility where
  | PUBLIC
  | PRIVATE
  | PROTECTED
  | INTERNAL
  | PACKAGE
  deriving DecidableEq, Repr

inductive CCMModifier where
  | STATIC
  | ABSTRACT
  | FINAL
  | ASYNC
  | VIRTUAL
  | OVERRIDE
  | READONLY
  | CONST
  deriving DecidableEq, Repr

/-! ## IR data classes (`CommentInfo`, `FunctionInfo`, `ClassInfo`,
`ModuleInfo`).  The Python `None` defaults of `decorators` and
`type_annotations` behave exactly like the empty collection in the
converter (`if function_info.decorators:` and `... or {}`), so both are
modelled as plain lists.  A dict of type annotations is an association
list. -/

structure CommentInfo where
  content : String
  line_number : Nat
  comment_type : String
  language : String
  deriving DecidableEq, Repr

structure FunctionInfo where
  name : String
  file_path : String
  start_line : Nat
  end_line : Nat
  parameters : List String
  return_type : Option String
  calls : List String
  called_by : List String
  class_name : Option String
  module_name : String
  language : String
  docstring : Option String
  comments : List CommentInfo
  is_async : Bool := false
  is_static : Bool := false
  visibility : String := "public"
  decorators : List String := []
  type_annotations : List (String × String) := []
  deriving DecidableEq, Repr

structure ClassInfo where
  name : String
  file_path : String
  start_line : Nat
  end_line : Nat
  methods : List String
  parent_classes : List String
  module_name : String
  language : String
  docstring : Option String
  comments : List CommentInfo
  decorators : List String := []
  is_abstract : Bool := false
  interfaces : List String := []
  deriving DecidableEq, Repr

structure ModuleInfo where
  name : String
  file_path : String
  imports : List String
  exports : List String
  functions : List String
  classes : List String
  language : String
  comments : List CommentInfo
  docstring : Option String
  deriving DecidableEq, Repr

/-! ## CCM output data classes -/

structure CCMLocation where
  file_path : String
  start_line : Nat
  end_line : Nat
  start_column : Option Nat := none
  end_column : Option Nat := none
  deriving DecidableEq, Repr

structure CCMTypeInfo where
  name : String
  is_primitive : Bool := false
  is_array : Bool := false
  is_nullable : Bool := false
  generic_parameters : Option (List String) := none
  namespace_name : Option String := none
  deriving DecidableEq, Repr

structure CCMParameter where
  name : String
  type_info : Option CCMTypeInfo := none
  default_value : Option String := none
  is_optional : Bool := false
  is_variadic : Bool := false
  deriving DecidableEq, Repr

structure CCMRelationship where
  type : String
  target_id : String
  target_name : String
  metadata : Option (List (String × String)) := none
  deriving DecidableEq, Repr

structure CCMDocumentation where
  summary : Option String := none
  description : Option String := none
  parameters : Option (List (String × String)) := none
  returns : Option String := none
  examples : Option (List String) := none
  tags : Option (List (String × String)) := none
  deriving DecidableEq, Repr

structure CCMNode where
  id : String
  name : String
  node_type : CCMNodeType
  location : CCMLocation
  language : String
  visibility : Option CCMVisibility := none
  modifiers : Option (List CCMModifier) := none
  type_info : Option CCMTypeInfo := none
  parameters : Option (List CCMParameter) := none
  return_type : Option CCMTypeInfo := none
  parent_id : Option String := none
  children_ids : Option (List String) := none
  relationships : Option (List CCMRelationship) := none
  documentation : Option CCMDocumentation := none
  raw_content : Option String := none
  annotations : Option (List (String × String)) := none
  deriving DecidableEq, Repr

structure CCMProject where
  name : String
  root_path : String
  project_type : String
  languages : List String
  deriving DecidableEq, Repr

/-- The entries of the `metadata` dict of `convert_to_ccm` that carry run
statistics.  The timestamp, histogram and pass-through entries are not
modelled: no claim mentions them. -/
structure CCMMetadata where
  analyzer_version : String
  total_nodes : Nat
  total_relationships : Nat
  resolved_relationships : Nat
  unresolved_relationships : Nat
  resolution_rate : ℚ
  deriving DecidableEq, Repr

structure CCMAnalysisResult where
  project : CCMProject
  nodes : List CCMNode
  relationships : List CCMRelationship
  metadata : CCMMetadata
  deriving DecidableEq, Repr

/-! ## Internal (pre-rendering) node representation

The Python converter stores id strings such as `module_000003` as soon as a
node is created.  We carry an id abstractly as the pair of its kind text
and the counter value it was generated with (the nodes are created one per
counter increment, so the counter value of a node is its creation position,
1-based).  `render` turns the pair into the exact string the Python code
builds, offset by the initial counter value of the converter. -/

structure NodeRef where
  kind : String
  num : Nat
  deriving DecidableEq, Repr

/-- `CCMConverter._generate_id`, applied to the counter value after the
increment and shifted by the initial counter value `c0` of the converter. -/
def render (c0 : Nat) (r : NodeRef) : String :=
  r.kind ++ "_" ++ pad6 (c0 + r.num)

structure CCMRelationshipI where
  type : String
  target_id : Option NodeRef
  target_name : String
  metadata : Option (List (String × String)) := none
  deriving DecidableEq, Repr

structure CCMNodeI where
  id : NodeRef
  name : String
  node_type : CCMNodeType
  location : CCMLocation
  language : String
  visibility : Option CCMVisibility := none
  modifiers : Option (List CCMModifier) := none
  type_info : Option CCMTypeInfo := none
  parameters : Option (List CCMParameter) := none
  return_type : Option CCMTypeInfo := none
  parent_id : Option NodeRef := none
  children_ids : Option (List NodeRef) := none
  relationships : Option (List CCMRelationshipI) := none
  documentation : Option CCMDocumentation := none
  raw_content : Option String := none
  annotations : Option (List (String × String)) := none
  deriving DecidableEq, Repr

/-- Render an unresolved target (`none`) as the empty string and a resolved
one as its id string, exactly the two shapes `target_id` takes in the
Python code. -/
def renderRel (c0 : Nat) (r : CCMRelationshipI) : CCMRelationship :=
  { type := r.type
    target_id := match r.target_id with
      | some ref => render c0 ref
      | none => ""
    target_name := r.target_name
    metadata := r.metadata }

def renderNode (c0 : Nat) (n : CCMNodeI) : CCMNode :=
  { id := render c0 n.id
    name := n.name
    node_type := n.node_type
    location := n.location
    language := n.language
    visibility := n.visibility
    modifiers := n.modifiers
    type_info := n.type_info
    parameters := n.parameters
    return_type := n.return_type
    parent_id := n.parent_id.map (render c0)
    children_ids := n.children_ids.map (fun l => l.map (render c0))
    relationships := n.relationships.map (fun l => l.map (renderRel c0))
    documentation := n.documentation
    raw_content := n.raw_content
    annotations := n.annotations }

/-! ## Converter helpers (`CCMConverter._get_ccm_visibility`,
`_get_ccm_modifiers`, `_get_ccm_class_modifiers`, `_parse_type_info`,
`_convert_parameters`, `_create_documentation`) -/

def get_ccm_visibility (visibility : String) : CCMVisibility :=
  let v := strToLower visibility
  if v = "public" then CCMVisibility.PUBLIC
  else if v = "private" then CCMVisibility.PRIVATE
  else if v = "protected" then CCMVisibility.PROTECTED
  else if v = "internal" then CCMVisibility.INTERNAL
  else if v = "package" then CCMVisibility.PACKAGE
  else CCMVisibility.PUBLIC

def get_ccm_modifiers (f : FunctionInfo) : List CCMModifier :=
  (if f.is_static then [CCMModifier.STATIC] else [])
  ++ (if f.is_async then [CCMModifier.ASYNC] else [])
  ++ f.decorators.filterMap (fun d =>
      if strContainsSub (strToLower d) "abstract" then some CCMModifier.ABSTRACT
      else if strContainsSub (strToLower d) "static" then some CCMModifier.STATIC
      else none)

def get_ccm_class_modifiers (c : ClassInfo) : List CCMModifier :=
  (if c.is_abstract then [CCMModifier.ABSTRACT] else [])
  ++ c.decorators.filterMap (fun d =>
      if strContainsSub (strToLower d) "abstract" then some CCMModifier.ABSTRACT
      else if strContainsSub (strToLower d) "final" then some CCMModifier.FINAL
      else none)

def primitive_types (language : String) : List String :=
  if language = "python" then ["int", "float", "str", "bool", "bytes", "None"]
  else if language = "javascript" then ["number", "string", "boolean", "undefined", "null"]
  else if language = "typescript" then ["number", "string", "boolean", "undefined", "null", "void"]
  else if language = "java" then ["int", "long", "float", "double", "boolean", "char", "byte", "short", "void"]
  else if language = "c" then ["int", "long", "float", "double", "char", "void"]
  else if language = "cpp" then ["int", "long", "float", "double", "char", "bool", "void"]
  else if language = "go" then ["int", "int32", "int64", "float32", "float64", "string", "bool"]
  else if language = "rust" then ["i32", "i64", "f32", "f64", "bool", "char", "str"]
  else []

def array_markers : List String :=
  ["[]", "List[", "Array<", "Vec<", "list[", "array["]

def nullable_markers : List String :=
  ["?", "Optional[", "Maybe<", "Option<"]

def clean_markers : List String :=
  ["[]", "?", "Optional[", "List[", "Array<", "Vec<", "Maybe<", "Option<"]

def parse_type_info (type_str : Option String) (language : String) : Option CCMTypeInfo :=
  match type_str with
  | none => none
  | some ts =>
    if ts = "" then none
    else
      let is_array := array_markers.any (fun m => strContainsSub ts m)
      let is_nullable := nullable_markers.any (fun m => strContainsSub ts m)
      let clean_type := clean_markers.foldl
        (fun acc m => strReplace (strReplace (strReplace acc m "") "]" "") ">" "") ts
      let clean_type := pythonStrip clean_type
      some { name := clean_type
             is_primitive := (primitive_types language).contains clean_type
             is_array := is_array
             is_nullable := is_nullable }

def convert_parameter (type_annotations : List (String × String)) (language : String)
    (param : String) : CCMParameter :=
  let (param_name, default_value) :=
    match splitFirstEq param with
    | (_, none) => (param, (none : Option String))
    | (n, some d) => (pythonStrip n, some (pythonStrip d))
  let is_optional := (splitFirstEq param).2.isSome
  let is_variadic := param_name.data.takeWhile (fun c => c = '*') ≠ []
  let param_name := String.mk (param_name.data.dropWhile (fun c => c = '*'))
  let type_info :=
    match type_annotations.lookup param_name with
    | some t => parse_type_info (some t) language
    | none => none
  { name := param_name
    type_info := type_info
    default_value := default_value
    is_optional := is_optional
    is_variadic := is_variadic }

def convert_parameters (parameters : List String) (type_annotations : List (String × String))
    (language : String) : List CCMParameter :=
  parameters.map (convert_parameter type_annotations language)

def create_documentation (docstring : Option String) (comments : List CommentInfo) :
    Option CCMDocumentation :=
  if !truthyO docstring ∧ comments = [] then none
  else
    let (summary, description) :=
      if truthyO docstring then
        let ls := strSplitOn (pythonStrip (docstring.getD "")) "\n"
        (some (pythonStrip (ls.headD "")),
         if ls.length > 1 then some (pythonStrip (String.intercalate "\n" ls.tail)) else none)
      else (none, none)
    let comment_text := (comments.filter (fun c => c.comment_type ≠ "docstring")).map
      (fun c => c.content)
    let description :=
      if comment_text ≠ [] ∧ !truthyO description then
        some (String.intercalate "\n" comment_text)
      else description
    some { summary := summary
           description := description
           parameters := some []
           returns := none }

/-! ## Builtin / noise call filter (`CCMConverter._is_likely_builtin_call`) -/

def builtin_functions : List String :=
  [ "print", "len", "range", "str", "int", "float", "bool", "list", "dict", "set", "tuple",
    "abs", "all", "any", "bin", "chr", "dir", "divmod", "enumerate", "eval", "exec",
    "filter", "format", "getattr", "hasattr", "hash", "hex", "id", "input", "isinstance",
    "issubclass", "iter", "map", "max", "min", "next", "oct", "open", "ord", "pow",
    "repr", "reversed", "round", "setattr", "sorted", "sum", "type", "vars", "zip",
    "console.log", "parseInt", "parseFloat", "isNaN", "isFinite", "encodeURI", "decodeURI",
    "setTimeout", "setInterval", "clearTimeout", "clearInterval",
    "append", "extend", "insert", "remove", "pop", "clear", "index", "count",
    "sort", "reverse", "copy", "get", "keys", "values", "items", "update",
    "add", "discard", "union", "intersection", "difference",
    "split", "join", "strip", "replace", "find", "startswith", "endswith",
    "upper", "lower", "capitalize", "title", "format" ]

def common_patterns : List String :=
  [ "append", "extend", "insert", "remove", "pop", "clear",
    "get", "set", "add", "delete", "update", "keys", "values",
    "push", "shift", "unshift", "slice", "splice", "concat",
    "toString", "valueOf", "hasOwnProperty" ]

def noise_chars : List Char :=
  ['(', ')', '[', ']', '{', '}', '+', '-', '*', '/', '=']

def is_likely_builtin_call (call : String) : Bool :=
  if builtin_functions.contains call then true
  else if strContainsChar call '.' &&
      (builtin_functions.contains (last_dot_segment call)
       || common_patterns.contains (last_dot_segment call)) then true
  else if noise_chars.any (fun ch => strContainsChar call ch) then true
  else if call.length ≤ 2 then true
  else false

/-! ## Import statement parsing
(`CCMConverter._extract_module_name_from_import`) -/

def extract_module_name_from_import (stmt : String) : Option String :=
  let s := pythonStrip stmt
  if strStartsWith s "import " then
    some (pythonStrip ((strSplitOn ((strSplitOn (stringDrop s 7) ".").headD "") " as ").headD ""))
  else if strStartsWith s "from " then
    some (pythonStrip (stringDrop ((strSplitOn s " import ").headD "") 5))
  else
    none

/-! ## Target resolution (`CCMConverter._find_target_id`) -/

/-- The resolution context dict: the optional entries under the keys
`module` and `class`.  The field for the `class` entry is named `cls`,
`class` being reserved in Lean. -/
structure ResolveContext where
  module : Option String := none
  cls : Option String := none
  deriving DecidableEq, Repr

/-- The ordered candidate-key list built by `_find_target_id`
(lines 1289-1313 of `enhanced_analyzer.py`).  A context entry is used only
when it is truthy, matching `if current_module:` / `if current_class:`. -/
def find_candidates (target_name : String) (ctx : ResolveContext) : List String :=
  [ target_name,
    "function:" ++ target_name,
    "class:" ++ target_name,
    "module:" ++ target_name ]
  ++ (if truthyO ctx.module then
        let m := ctx.module.getD ""
        [ m ++ "." ++ target_name,
          "function:" ++ m ++ "." ++ target_name,
          "class:" ++ m ++ "." ++ target_name ]
      else [])
  ++ (if truthyO ctx.cls then
        let k := ctx.cls.getD ""
        [ k ++ "." ++ target_name,
          "function:" ++ k ++ "." ++ target_name ]
        ++ (if truthyO ctx.module then
              let m := ctx.module.getD ""
              [ m ++ "." ++ k ++ "." ++ target_name,
                "function:" ++ m ++ "." ++ k ++ "." ++ target_name ]
            else [])
      else [])

/-- `_find_target_id` over an abstract id-valued lookup table: the empty
target name returns `""` at once (`if not target_name:`); otherwise the
first candidate present in the table decides. -/
def find_target_id (target_name : String) (node_lookup : String → Option String)
    (ctx : ResolveContext) : String :=
  if target_name = "" then ""
  else
    match (find_candidates target_name ctx).findSome? node_lookup with
    | some v => v
    | none => ""

/-- The same search over the internal index-valued lookup table used by the
conversion model. -/
def find_target_idx (target_name : String) (node_lookup : String → Option Nat)
    (ctx : ResolveContext) : Option Nat :=
  if target_name = "" then none
  else (find_candidates target_name ctx).findSome? node_lookup

/-! ## Phase 1: node materialization (`convert_to_ccm`, lines 997-1158)

The converter walks modules, then classes, then functions, then comments,
creating one node per entity and registering lookup keys.  The state
carries the nodes in creation order and the four dict tables mapping names
to node positions. -/

structure P1State where
  nodes : List CCMNodeI
  node_lookup : String → Option Nat
  module_nodes : String → Option Nat
  class_nodes : String → Option Nat
  function_nodes : String → Option Nat

def P1State.init : P1State :=
  { nodes := []
    node_lookup := fun _ => none
    module_nodes := fun _ => none
    class_nodes := fun _ => none
    function_nodes := fun _ => none }

/-- The id (as a `NodeRef`) of the node stored at a position. -/
def refAt (nodes : List CCMNodeI) (i : Nat) : NodeRef :=
  match nodes[i]? with
  | some n => n.id
  | none => { kind := "", num := 0 }

/-- `children_ids.append(child)` on the node at position `i`. -/
def appendChildRef (child : NodeRef) (n : CCMNodeI) : CCMNodeI :=
  { n with children_ids := some (n.children_ids.getD [] ++ [child]) }

/-- `relationships.append(rel)` on a node. -/
def appendRelI (rel : CCMRelationshipI) (n : CCMNodeI) : CCMNodeI :=
  { n with relationships := some (n.relationships.getD [] ++ [rel]) }

/-- Fold dict registrations `node_lookup[key] = idx` over a key list. -/
def registerKeys (keys : List String) (idx : Nat) (m : String → Option Nat) :
    String → Option Nat :=
  keys.foldl (fun acc k => updateMap acc k idx) m

/-- The module node created for one `ModuleInfo`, with `idx` its creation
position. -/
def moduleNodeOf (idx : Nat) (m : ModuleInfo) : CCMNodeI :=
  { id := { kind := "module", num := idx + 1 }
    name := m.name
    node_type := CCMNodeType.MODULE
    location := { file_path := m.file_path, start_line := 1, end_line := 1 }
    language := m.language
    documentation := create_documentation m.docstring m.comments
    children_ids := some []
    relationships := some [] }

/-- Step 1 of Phase 1: one module node; registered under its bare name and
its `module:`-qualified name. -/
def addModule (s : P1State) (m : ModuleInfo) : P1State :=
  let idx := s.nodes.length
  { s with
    nodes := s.nodes ++ [moduleNodeOf idx m]
    module_nodes := updateMap s.module_nodes m.name idx
    node_lookup := registerKeys [m.name, "module:" ++ m.name] idx s.node_lookup }

/-- The class node created for one `ClassInfo`. -/
def classNodeOf (idx : Nat) (parent_id : Option NodeRef) (ci : ClassInfo) : CCMNodeI :=
  { id := { kind := "class", num := idx + 1 }
    name := ci.name
    node_type := CCMNodeType.CLASS
    location := { file_path := ci.file_path, start_line := ci.start_line, end_line := ci.end_line }
    language := ci.language
    modifiers := some (get_ccm_class_modifiers ci)
    parent_id := parent_id
    children_ids := some []
    relationships := some []
    documentation := create_documentation ci.docstring ci.comments }

/-- Step 2 of Phase 1: one class node; parented to its module when the
module is in the batch (the parent also records the new child), and
registered under four keys. -/
def addClass (s : P1State) (ci : ClassInfo) : P1State :=
  let idx := s.nodes.length
  let class_id : NodeRef := { kind := "class", num := idx + 1 }
  let class_full_name := ci.module_name ++ "." ++ ci.name
  let (parent_id, nodes') :=
    match s.module_nodes ci.module_name with
    | some pidx => (some (refAt s.nodes pidx), modifyIdx (appendChildRef class_id) pidx s.nodes)
    | none => ((none : Option NodeRef), s.nodes)
  { s with
    nodes := nodes' ++ [classNodeOf idx parent_id ci]
    class_nodes := updateMap s.class_nodes class_full_name idx
    node_lookup := registerKeys
      [ci.name, "class:" ++ ci.name, class_full_name, "class:" ++ class_full_name]
      idx s.node_lookup }

/-- The full name `module.class.name` (or `module.name` when the function
is not owned by a class), shared by Phase 1 and Phase 2. -/
def function_full_name (fi : FunctionInfo) : String :=
  if truthyO fi.class_name then
    fi.module_name ++ "." ++ fi.class_name.getD "" ++ "." ++ fi.name
  else
    fi.module_name ++ "." ++ fi.name

/-- The `class.name` shorthand, present only for methods. -/
def function_class_name (fi : FunctionInfo) : Option String :=
  if truthyO fi.class_name then some (fi.class_name.getD "" ++ "." ++ fi.name)
  else none

/-- The lookup keys registered for a function node, in registration order
(lines 1123-1136 of `enhanced_analyzer.py`). -/
def function_lookup_keys (fi : FunctionInfo) : List String :=
  [fi.name, "function:" ++ fi.name,
   function_full_name fi, "function:" ++ function_full_name fi]
  ++ (match function_class_name fi with
      | some c => [c, "function:" ++ c]
      | none => [])
  ++ [fi.module_name ++ "." ++ fi.name, "function:" ++ fi.module_name ++ "." ++ fi.name]

/-- The node type of a function node: `method` when owned by a class, else
`function`, overridden to `constructor` for the fixed initializer names. -/
def functionNodeType (fi : FunctionInfo) : CCMNodeType :=
  if fi.name = "__init__" ∨ fi.name = "constructor" ∨ fi.name = "init" then
    CCMNodeType.CONSTRUCTOR
  else if truthyO fi.class_name then CCMNodeType.METHOD
  else CCMNodeType.FUNCTION

/-- The function node created for one `FunctionInfo`. -/
def functionNodeOf (idx : Nat) (parent_id : Option NodeRef) (fi : FunctionInfo) : CCMNodeI :=
  { id := { kind := "function", num := idx + 1 }
    name := fi.name
    node_type := functionNodeType fi
    location := { file_path := fi.file_path, start_line := fi.start_line, end_line := fi.end_line }
    language := fi.language
    visibility := some (get_ccm_visibility fi.visibility)
    modifiers := some (get_ccm_modifiers fi)
    parameters := some (convert_parameters fi.parameters fi.type_annotations fi.language)
    return_type := parse_type_info fi.return_type fi.language
    parent_id := parent_id
    relationships := some []
    documentation := create_documentation fi.docstring fi.comments }

/-- Step 3 of Phase 1: one function, method or constructor node.  The
parent is the owning class when it is in the batch; for a class-less
function the owning module; a method whose class is missing gets no parent
at all (the Python `elif`). -/
def addFunction (s : P1State) (fi : FunctionInfo) : P1State :=
  let idx := s.nodes.length
  let function_id : NodeRef := { kind := "function", num := idx + 1 }
  let (parent_id, nodes') :=
    match truthyO fi.class_name with
    | true =>
      match s.class_nodes (fi.module_name ++ "." ++ fi.class_name.getD "") with
      | some pidx =>
        (some (refAt s.nodes pidx), modifyIdx (appendChildRef function_id) pidx s.nodes)
      | none => ((none : Option NodeRef), s.nodes)
    | false =>
      match s.module_nodes fi.module_name with
      | some pidx =>
        (some (refAt s.nodes pidx), modifyIdx (appendChildRef function_id) pidx s.nodes)
      | none => ((none : Option NodeRef), s.nodes)
  { s with
    nodes := nodes' ++ [functionNodeOf idx parent_id fi]
    function_nodes := updateMap s.function_nodes (function_full_name fi) idx
    node_lookup := registerKeys (function_lookup_keys fi) idx s.node_lookup }

/-- The comment node created for one `CommentInfo`. -/
def commentNodeOf (idx : Nat) (c : CommentInfo) : CCMNodeI :=
  { id := { kind := "comment", num := idx + 1 }
    name := "comment_" ++ toString c.line_number
    node_type := CCMNodeType.COMMENT
    location := { file_path := "", start_line := c.line_number, end_line := c.line_number }
    language := c.language
    raw_content := some c.content
    annotations := some [("comment_type", c.comment_type)] }

/-- Step 4 of Phase 1: one comment node, a standalone leaf. -/
def addComment (s : P1State) (c : CommentInfo) : P1State :=
  { s with nodes := s.nodes ++ [commentNodeOf s.nodes.length c] }

/-- Phase 1 in creation order: modules, classes, functions, comments. -/
def phase1 (functions : List FunctionInfo) (classes : List ClassInfo)
    (modules : List ModuleInfo) (comments : List CommentInfo) : P1State :=
  comments.foldl addComment
    (functions.foldl addFunction
      (classes.foldl addClass
        (modules.foldl addModule P1State.init)))


/-! ## Phase 2: relationship resolution (`convert_to_ccm`, lines 1160-1248)

The Phase 1 tables are complete and fixed; Phase 2 threads the node list
(relationship appends mutate earlier nodes), the flattened relationship
list and the two counters.  Resolution success is tested in Python as
truthiness of the returned id string; a rendered id string is never empty
(lemma `render_ne_empty` below), so the model tests `Option.isSome` of the
index-valued search instead. -/

structure P2State where
  nodes : List CCMNodeI
  rels : List CCMRelationshipI
  resolved : Nat
  unresolved : Nat

/-- One import statement of one module (Phase 2, step 1).  A statement
whose module text cannot be extracted (or is empty, `if imported_module:`)
contributes nothing; otherwise a relationship is always emitted, with an
empty target when resolution fails, and exactly one counter moves.  The
dict access `module_nodes[module.name]` cannot fail for modules of the
batch; the impossible branch leaves the state unchanged. -/
def importStep (p1 : P1State) (module_name : String) (s : P2State) (stmt : String) : P2State :=
  match extract_module_name_from_import stmt with
  | none => s
  | some imported_module =>
    if imported_module = "" then s
    else
      let tgt := find_target_idx imported_module p1.node_lookup {}
      let rel : CCMRelationshipI :=
        { type := "imports"
          target_id := tgt.map (refAt s.nodes)
          target_name := imported_module }
      let nodes' :=
        match p1.module_nodes module_name with
        | some mi => modifyIdx (appendRelI rel) mi s.nodes
        | none => s.nodes
      { nodes := nodes'
        rels := s.rels ++ [rel]
        resolved := s.resolved + (if tgt.isSome then 1 else 0)
        unresolved := s.unresolved + (if tgt.isSome then 0 else 1) }

/-- One raw parent-class name of one class (Phase 2, step 2): resolved with
the owning module as context and no class context; always emitted. -/
def inheritStep (p1 : P1State) (ci : ClassInfo) (s : P2State) (parent_class : String) : P2State :=
  let tgt := find_target_idx parent_class p1.node_lookup { module := some ci.module_name }
  let rel : CCMRelationshipI :=
    { type := "inherits"
      target_id := tgt.map (refAt s.nodes)
      target_name := parent_class }
  let nodes' :=
    match p1.class_nodes (ci.module_name ++ "." ++ ci.name) with
    | some ki => modifyIdx (appendRelI rel) ki s.nodes
    | none => s.nodes
  { nodes := nodes'
    rels := s.rels ++ [rel]
    resolved := s.resolved + (if tgt.isSome then 1 else 0)
    unresolved := s.unresolved + (if tgt.isSome then 0 else 1) }

/-- One raw call string of one function (Phase 2, step 3): dropped by the
noise filter before resolution; on resolution failure nothing is emitted
and no counter moves; on success one `calls` relationship is emitted and
`resolved` moves. -/
def callStep (p1 : P1State) (fi : FunctionInfo) (s : P2State) (call : String) : P2State :=
  if is_likely_builtin_call call then s
  else
    match find_target_idx call p1.node_lookup
        { module := some fi.module_name, cls := fi.class_name } with
    | none => s
    | some i =>
      let rel : CCMRelationshipI :=
        { type := "calls"
          target_id := some (refAt s.nodes i)
          target_name := call }
      let nodes' :=
        match p1.function_nodes (function_full_name fi) with
        | some fidx => modifyIdx (appendRelI rel) fidx s.nodes
        | none => s.nodes
      { nodes := nodes'
        rels := s.rels ++ [rel]
        resolved := s.resolved + 1
        unresolved := s.unresolved }

def phase2 (p1 : P1State) (functions : List FunctionInfo) (classes : List ClassInfo)
    (modules : List ModuleInfo) : P2State :=
  functions.foldl (fun s fi => fi.calls.foldl (callStep p1 fi) s)
    (classes.foldl (fun s ci => ci.parent_classes.foldl (inheritStep p1 ci) s)
      (modules.foldl (fun s m => m.imports.foldl (importStep p1 m.name) s)
        { nodes := p1.nodes, rels := [], resolved := 0, unresolved := 0 }))

/-- Both phases, before id rendering. -/
def build_internal (functions : List FunctionInfo) (classes : List ClassInfo)
    (modules : List ModuleInfo) (comments : List CommentInfo) : P2State :=
  phase2 (phase1 functions classes modules comments) functions classes modules

/-! ## The relationship each single reference contributes

Phase 2 threads state only to mutate node relationship lists; the
relationship appended for one reference depends only on the completed
Phase 1 state (node ids never change during Phase 2).  These definitions
name that per-reference contribution; `phase2_rels_spec` below proves the
flattened relationship list is exactly their concatenation, one entry per
surviving reference, in processing order. -/

/-- The `imports` relationship of one import statement: none when no
module text extracts (or it is empty), else one relationship, kept even
when resolution fails. -/
def importRelOf (p1 : P1State) (stmt : String) : Option CCMRelationshipI :=
  match extract_module_name_from_import stmt with
  | none => none
  | some imported_module =>
    if imported_module = "" then none
    else
      some { type := "imports"
             target_id := (find_target_idx imported_module p1.node_lookup {}).map
               (refAt p1.nodes)
             target_name := imported_module }

/-- The `inherits` relationship of one raw parent-class name: always one
relationship, kept even when resolution fails. -/
def inheritRelOf (p1 : P1State) (ci : ClassInfo) (parent_class : String) : CCMRelationshipI :=
  { type := "inherits"
    target_id := (find_target_idx parent_class p1.node_lookup
      { module := some ci.module_name }).map (refAt p1.nodes)
    target_name := parent_class }

/-- The `calls` relationship of one raw call string: none when the noise
filter rejects it or resolution fails, else one resolved relationship. -/
def callRelOf (p1 : P1State) (fi : FunctionInfo) (call : String) : Option CCMRelationshipI :=
  if is_likely_builtin_call call then none
  else
    match find_target_idx call p1.node_lookup
        { module := some fi.module_name, cls := fi.class_name } with
    | some i => some { type := "calls", target_id := some (refAt p1.nodes i),
                       target_name := call }
    | none => none

/-- The whole flattened relationship list of Phase 2, reference by
reference: imports of every module, then parent classes of every class,
then surviving calls of every function. -/
def phase2_rels (p1 : P1State) (functions : List FunctionInfo) (classes : List ClassInfo)
    (modules : List ModuleInfo) : List CCMRelationshipI :=
  (modules.flatMap fun m => m.imports.filterMap (importRelOf p1))
  ++ (classes.flatMap fun ci => ci.parent_classes.map (inheritRelOf p1 ci))
  ++ (functions.flatMap fun fi => fi.calls.filterMap (callRelOf p1 fi))

/-- `CCMConverter.convert_to_ccm`.  `c0` is the value of the converter
counter when the call starts (0 for a fresh converter); it offsets every
generated id. -/
def convert_to_ccm (c0 : Nat) (functions : List FunctionInfo) (classes : List ClassInfo)
    (modules : List ModuleInfo) (comments : List CommentInfo) (project : CCMProject) :
    CCMAnalysisResult :=
  let p2 := build_internal functions classes modules comments
  { project := project
    nodes := p2.nodes.map (renderNode c0)
    relationships := p2.rels.map (renderRel c0)
    metadata :=
      { analyzer_version := "2.1.0-ccm-two-phase"
        total_nodes := p2.nodes.length
        total_relationships := p2.rels.length
        resolved_relationships := p2.resolved
        unresolved_relationships := p2.unresolved
        resolution_rate :=
          if p2.rels.isEmpty then 0
          else (p2.resolved : ℚ) / (p2.rels.length : ℚ) * 100 } }

/-! ## Per-file content gate
(`ComprehensiveMultiLanguageAnalyzer.analyze_file`, lines 1715-1743)

The path checks and the tree-sitter / regex extractors around the gate are
outside the converter; the extractors are taken as a parameter.  The gate
itself is `if len(content.strip()) < 10: return None`. -/

structure FileAnalysis where
  functions : List FunctionInfo
  classes : List ClassInfo
  module : ModuleInfo
  deriving DecidableEq, Repr

/-- The skip decision of `analyze_file` on the file content. -/
def skips_file (content : String) : Bool :=
  (pythonStrip content).length < 10

def analyze_file_content (analyzer : String → Option FileAnalysis) (content : String) :
    Option FileAnalysis :=
  if (pythonStrip content).length < 10 then none
  else analyzer content

/-! ## Stripping of node-id fields (claim C9)

Two runs of the conversion differ at most in the generated id strings.
`stripNode` redacts every id-valued field of a node (its own id, the
parent id, the children ids, and the target ids of its inline
relationships) while keeping all structure; `stripRelationship` does the
same for a flattened relationship. -/

def stripRelationship (r : CCMRelationship) : CCMRelationship :=
  { r with target_id := "" }

def stripNode (n : CCMNode) : CCMNode :=
  { n with
    id := ""
    parent_id := n.parent_id.map (fun _ => "")
    children_ids := n.children_ids.map (fun l => l.map (fun _ => ""))
    relationships := n.relationships.map (fun l => l.map stripRelationship) }

/-! ## Claim-side definitions

These definitions follow the wording of the spec claims (not the source);
each is compared against the corresponding source-derived definition. -/

/-- Claim C1 describes the resolver as: build the ordered candidate list
and return the id bound to the first candidate present in the table, else
the empty string — with no special case for any target name. -/
def claim_resolve (target_name : String) (node_lookup : String → Option String)
    (ctx : ResolveContext) : String :=
  match (find_candidates target_name ctx).findSome? node_lookup with
  | some v => v
  | none => ""

/-- Claim C4 speaks of one "fixed builtin/common-method list"; the union of
the two lists the source keeps. -/
def claim_noise_list : List String :=
  builtin_functions ++ common_patterns

/-- The noise predicate as claim C4 states it: the text itself or its last
dot-separated segment is in the list, or the text contains a special
character, or the text is at most 2 characters long. -/
def claim_noise (call : String) : Bool :=
  claim_noise_list.contains call
  || claim_noise_list.contains (last_dot_segment call)
  || noise_chars.any (fun ch => strContainsChar call ch)
  || call.length ≤ 2

/-- One-decimal rounding of an exact rate, as Python `{:.1f}` formatting
performs on these values (none of the concrete rates below is a half-way
tie, so round-half-even and ordinary rounding agree). -/
def round1 (q : ℚ) : ℚ :=
  ((round (q * 10) : ℤ) : ℚ) / 10

/-! ## Invariants carried through the two phases -/

/-- A node with its inline relationship list removed: the part of a node
Phase 2 never changes. -/
def stripRels (n : CCMNodeI) : CCMNodeI :=
  { n with relationships := none }

/-- The Phase 1 state invariant:
parent links point at earlier nodes that list the child back,
the three entity tables point at nodes of the right type,
and comment nodes are bare leaves. -/
structure P1Inv (s : P1State) : Prop where
  parentOk : ∀ (j : Nat) (n : CCMNodeI) (p : NodeRef), s.nodes[j]? = some n →
    n.parent_id = some p →
    ∃ (k : Nat) (m : CCMNodeI), s.nodes[k]? = some m ∧ m.id = p ∧ n.id ∈ m.children_ids.getD []
  moduleMap : ∀ (k : String) (i : Nat), s.module_nodes k = some i →
    ∃ n : CCMNodeI, s.nodes[i]? = some n ∧ n.node_type = CCMNodeType.MODULE
  classMap : ∀ (k : String) (i : Nat), s.class_nodes k = some i →
    ∃ n : CCMNodeI, s.nodes[i]? = some n ∧ n.node_type = CCMNodeType.CLASS
  funcMap : ∀ (k : String) (i : Nat), s.function_nodes k = some i →
    ∃ n : CCMNodeI, s.nodes[i]? = some n ∧ n.node_type ≠ CCMNodeType.COMMENT
  commentOk : ∀ (j : Nat) (n : CCMNodeI), s.nodes[j]? = some n →
    n.node_type = CCMNodeType.COMMENT →
    n.parent_id = none ∧ n.children_ids = none ∧ n.parameters = none ∧ n.relationships = none

/-- The Phase 2 state invariant over the fixed Phase 1 state: Phase 2 only
appends relationships (`stable`), comment nodes never receive any
(`commentRels`), and the counters and the flattened list tell one story:
every relationship moved exactly one counter, `calls` relationships are
always resolved, and unresolved relationships are imports or inherits. -/
structure P2Inv (p1 : P1State) (s : P2State) : Prop where
  stable : ∀ j : Nat, (s.nodes[j]?).map stripRels = (p1.nodes[j]?).map stripRels
  commentRels : ∀ (j : Nat) (n : CCMNodeI), s.nodes[j]? = some n →
    n.node_type = CCMNodeType.COMMENT → n.relationships = none
  counts : s.rels.length = s.resolved + s.unresolved
  resCount : s.resolved = (s.rels.filter (fun r => r.target_id.isSome)).length
  unresCount : s.unresolved = (s.rels.filter (fun r => r.target_id.isNone)).length
  callsResolved : ∀ r ∈ s.rels, r.type = "calls" → r.target_id.isSome
  unresKind : ∀ r ∈ s.rels, r.target_id = none → r.type = "imports" ∨ r.type = "inherits"

/-! ## Concrete inputs used by the witnesses and counterexamples -/

def projEx : CCMProject :=
  { name := "proj", root_path := "/p", project_type := "unknown", languages := ["python"] }

/-- A lookup table binding the empty key, as Phase 1 produces for a module
whose name is empty (the file stem is registered verbatim). -/
def lookup_C1 : String → Option String :=
  fun k => if k = "" then some "module_000001" else none

/-- A table for the amended-C1 witness: the bare name is bound, and a
contextual candidate is bound to a different id. -/
def lookup_C1w : String → Option String :=
  fun k =>
    if k = "helper" then some "function_000003"
    else if k = "m.helper" then some "function_000007"
    else none

/-- C2 witness input: a module importing one resolvable and one external
module, a class with an undefined parent, and a function calling another
function. -/
def mod_C2a : ModuleInfo :=
  { name := "core", file_path := "core.py", imports := ["import util", "import requests"],
    exports := [], functions := ["main"], classes := ["Dog"], language := "python",
    comments := [], docstring := none }

def mod_C2b : ModuleInfo :=
  { name := "util", file_path := "util.py", imports := [], exports := [],
    functions := ["helper"], classes := [], language := "python",
    comments := [], docstring := none }

def cls_C2 : ClassInfo :=
  { name := "Dog", file_path := "core.py", start_line := 1, end_line := 5,
    methods := [], parent_classes := ["Animal"], module_name := "core",
    language := "python", docstring := none, comments := [] }

def fn_C2a : FunctionInfo :=
  { name := "helper", file_path := "util.py", start_line := 1, end_line := 2,
    parameters := [], return_type := none, calls := [], called_by := [],
    class_name := none, module_name := "util", language := "python",
    docstring := none, comments := [] }

def fn_C2b : FunctionInfo :=
  { name := "main", file_path := "core.py", start_line := 7, end_line := 9,
    parameters := [], return_type := none, calls := ["helper", "undefined_thing"],
    called_by := [], class_name := none, module_name := "core", language := "python",
    docstring := none, comments := [] }

/-- C3 input: three modules, `alpha` importing the two others and one
external module — exactly 2 resolved and 1 unresolved import. -/
def mods_C3 : List ModuleInfo :=
  [ { name := "alpha", file_path := "alpha.py",
      imports := ["import beta", "import gamma", "import delta"],
      exports := [], functions := [], classes := [], language := "python",
      comments := [], docstring := none },
    { name := "beta", file_path := "beta.py", imports := [], exports := [],
      functions := [], classes := [], language := "python", comments := [], docstring := none },
    { name := "gamma", file_path := "gamma.py", imports := [], exports := [],
      functions := [], classes := [], language := "python", comments := [], docstring := none } ]

/-- C4 scenario input: a function whose only recorded call target is the
literal text `print`. -/
def mod_C4 : ModuleInfo :=
  { name := "solo", file_path := "solo.py", imports := [], exports := [],
    functions := ["talk"], classes := [], language := "python",
    comments := [], docstring := none }

def fn_C4 : FunctionInfo :=
  { name := "talk", file_path := "solo.py", start_line := 1, end_line := 3,
    parameters := [], return_type := none, calls := ["print"], called_by := [],
    class_name := none, module_name := "solo", language := "python",
    docstring := none, comments := [] }

/-- C5 counterexample input: a method with distinct name, class and module
texts, so that all eight registered keys are pairwise distinct. -/
def fn_C5 : FunctionInfo :=
  { name := "run", file_path := "mill.py", start_line := 4, end_line := 9,
    parameters := ["self"], return_type := none, calls := [], called_by := [],
    class_name := some "Crane", module_name := "mill", language := "python",
    docstring := none, comments := [] }

/-- A fixed extractor result for the C6 statements: what the downstream
analyzers would hand back for a file that is not skipped. -/
def fa_C6 : FileAnalysis :=
  { functions := []
    classes := []
    module := { name := "tiny", file_path := "tiny.py", imports := [], exports := [],
                functions := [], classes := [], language := "python",
                comments := [], docstring := none } }

def analyzer_C6 : String → Option FileAnalysis :=
  fun _ => some fa_C6

/-- C7 witness input: one module owning one class and one function. -/
def mod_C7 : ModuleInfo :=
  { name := "zoo", file_path := "zoo.py", imports := [], exports := [],
    functions := ["feed"], classes := ["Ape"], language := "python",
    comments := [], docstring := none }

def cls_C7 : ClassInfo :=
  { name := "Ape", file_path := "zoo.py", start_line := 1, end_line := 6,
    methods := ["swing"], parent_classes := [], module_name := "zoo",
    language := "python", docstring := none, comments := [] }

def fn_C7 : FunctionInfo :=
  { name := "swing", file_path := "zoo.py", start_line := 2, end_line := 3,
    parameters := ["self"], return_type := none, calls := [], called_by := [],
    class_name := some "Ape", module_name := "zoo", language := "python",
    docstring := none, comments := [] }

/-- C8 witness input: one standalone comment next to a module. -/
def mod_C8 : ModuleInfo :=
  { name := "notes", file_path := "notes.py", imports := [], exports := [],
    functions := [], classes := [], language := "python",
    comments := [], docstring := none }

def cmt_C8 : CommentInfo :=
  { content := "fix me later", line_number := 12, comment_type := "line",
    language := "python" }

/-- C9 witness-free input reuse: any of the above works; C9 needs none. -/
def mods_C10 : List ModuleInfo :=
  [ { name := "quiet", file_path := "quiet.py", imports := [], exports := [],
      functions := [], classes := [], language := "python",
      comments := [], docstring := none } ]

/-- A default node, for positional access in the concrete witnesses. -/
instance : Inhabited CCMNode :=
  ⟨{ id := "", name := "", node_type := CCMNodeType.MODULE,
     location := { file_path := "", start_line := 0, end_line := 0 }, language := "" }⟩

/-- A default relationship, for positional access in the concrete
witnesses. -/
instance : Inhabited CCMRelationship :=
  ⟨{ type := "", target_id := "", target_name := "" }⟩

/-! # Theorems -/

/-! ## Generic helper lemmas -/

theorem foldl_inv {σ α : Type} (P : σ → Prop) (step : σ → α → σ)
    (hstep : ∀ s x, P s → P (step s x)) :
    ∀ (l : List α) (s : σ), P s → P (l.foldl step s) := by
  intro l
  induction l with
  | nil => intro s hs; exact hs
  | cons x xs ih => intro s hs; exact ih (step s x) (hstep s x hs)

theorem length_modifyIdx (f : α → α) (i : Nat) (l : List α) :
    (modifyIdx f i l).length = l.length := by
  induction l generalizing i with
  | nil => cases i <;> rfl
  | cons x xs ih => cases i <;> simp [modifyIdx, ih]

theorem getElem?_modifyIdx (f : α → α) (i j : Nat) (l : List α) :
    (modifyIdx f i l)[j]? = if i = j then (l[j]?).map f else l[j]? := by
  induction l generalizing i j with
  | nil => cases i <;> cases j <;> simp [modifyIdx]
  | cons x xs ih =>
    cases i with
    | zero => cases j <;> simp [modifyIdx]
    | succ i =>
      cases j with
      | zero => simp [modifyIdx]
      | succ j => simpa [modifyIdx] using ih i j

theorem getElem?_snoc (l : List α) (a : α) (j : Nat) :
    (l ++ [a])[j]? = if j < l.length then l[j]? else if j = l.length then some a else none := by
  induction l generalizing j with
  | nil => cases j <;> simp
  | cons x xs ih =>
    cases j with
    | zero => simp
    | succ j => simpa [Nat.succ_lt_succ_iff] using ih j

theorem render_ne_empty (c0 : Nat) (r : NodeRef) : render c0 r ≠ "" := by
  intro h
  have hd := congrArg String.data h
  simp only [render, String.data_append] at hd
  simp at hd

theorem getElem?_append_some {l : List α} {k : Nat} {m : α} (a : α) (h : l[k]? = some m) :
    (l ++ [a])[k]? = some m := by
  have hk : k < l.length := by
    by_contra hk
    rw [List.getElem?_eq_none (Nat.le_of_not_lt hk)] at h
    exact Option.noConfusion h
  rw [getElem?_snoc, if_pos hk]
  exact h

theorem getElem?_length_snoc (l : List α) (a : α) : (l ++ [a])[l.length]? = some a := by
  rw [getElem?_snoc, if_neg (Nat.lt_irrefl _), if_pos rfl]

theorem p1inv_init : P1Inv P1State.init := by
  constructor
  · intro j n p hj; simp [P1State.init] at hj
  · intro k i hk; simp [P1State.init] at hk
  · intro k i hk; simp [P1State.init] at hk
  · intro k i hk; simp [P1State.init] at hk
  · intro j n hj; simp [P1State.init] at hj

theorem addModule_inv (s : P1State) (m : ModuleInfo) (h : P1Inv s) :
    P1Inv (addModule s m) := by
  constructor
  · intro j n p hj hp
    simp only [addModule] at hj
    rw [getElem?_snoc] at hj
    split at hj
    · obtain ⟨k, w, hk, hw, hmem⟩ := h.parentOk j n p hj hp
      exact ⟨k, w, getElem?_append_some _ hk, hw, hmem⟩
    · split at hj
      · cases hj
        simp [moduleNodeOf] at hp
      · exact Option.noConfusion hj
  · intro k i hk
    simp only [addModule, registerKeys, updateMap] at hk
    by_cases hkey : k = m.name
    · rw [if_pos hkey] at hk
      cases hk
      refine ⟨moduleNodeOf s.nodes.length m, ?_, rfl⟩
      simp only [addModule]
      exact getElem?_length_snoc s.nodes (moduleNodeOf s.nodes.length m)
    · rw [if_neg hkey] at hk
      obtain ⟨n, hn, ht⟩ := h.moduleMap k i hk
      exact ⟨n, by simpa [addModule] using getElem?_append_some _ hn, ht⟩
  · intro k i hk
    simp only [addModule] at hk
    obtain ⟨n, hn, ht⟩ := h.classMap k i hk
    exact ⟨n, by simpa [addModule] using getElem?_append_some _ hn, ht⟩
  · intro k i hk
    simp only [addModule] at hk
    obtain ⟨n, hn, ht⟩ := h.funcMap k i hk
    exact ⟨n, by simpa [addModule] using getElem?_append_some _ hn, ht⟩
  · intro j n hj htype
    simp only [addModule] at hj
    rw [getElem?_snoc] at hj
    split at hj
    · exact h.commentOk j n hj htype
    · split at hj
      · cases hj
        simp [moduleNodeOf] at htype
      · exact Option.noConfusion hj

@[simp] theorem appendChildRef_id (r : NodeRef) (n : CCMNodeI) :
    (appendChildRef r n).id = n.id := rfl

@[simp] theorem appendChildRef_node_type (r : NodeRef) (n : CCMNodeI) :
    (appendChildRef r n).node_type = n.node_type := rfl

@[simp] theorem appendChildRef_parent_id (r : NodeRef) (n : CCMNodeI) :
    (appendChildRef r n).parent_id = n.parent_id := rfl

@[simp] theorem appendChildRef_children (r : NodeRef) (n : CCMNodeI) :
    (appendChildRef r n).children_ids.getD [] = n.children_ids.getD [] ++ [r] := rfl

/-- Lifting one node witness into the list obtained by extending the
children of the node at `pidx` and appending a fresh node: the witness is
still there, with the same id and at least its old children. -/
theorem witness_lift (nodes : List CCMNodeI) (pidx : Nat) (cid : NodeRef)
    (newNode : CCMNodeI) {k : Nat} {m : CCMNodeI} (hk : nodes[k]? = some m) :
    ∃ m', (modifyIdx (appendChildRef cid) pidx nodes ++ [newNode])[k]? = some m' ∧
      m'.id = m.id ∧ ∀ r ∈ m.children_ids.getD [], r ∈ m'.children_ids.getD [] := by
  by_cases hpk : pidx = k
  · subst hpk
    refine ⟨appendChildRef cid m, ?_, rfl, ?_⟩
    · have : (modifyIdx (appendChildRef cid) pidx nodes)[pidx]? = some (appendChildRef cid m) := by
        rw [getElem?_modifyIdx, if_pos rfl, hk]; rfl
      exact getElem?_append_some _ this
    · intro r hr
      simp only [appendChildRef_children]
      exact List.mem_append_left _ hr
  · refine ⟨m, ?_, rfl, fun r hr => hr⟩
    have : (modifyIdx (appendChildRef cid) pidx nodes)[k]? = some m := by
      rw [getElem?_modifyIdx, if_neg hpk]; exact hk
    exact getElem?_append_some _ this

/-- Preservation of the parent/children consistency when the node at
`pidx` receives the fresh node id as a child and the fresh node is
appended, its parent being either absent or the id of the node at
`pidx`. -/
theorem parentOk_modify_snoc (nodes : List CCMNodeI) (pidx : Nat) (pn : CCMNodeI)
    (cid : NodeRef) (newNode : CCMNodeI) (hpn : nodes[pidx]? = some pn)
    (hold : ∀ (j : Nat) (n : CCMNodeI) (p : NodeRef), nodes[j]? = some n →
      n.parent_id = some p →
      ∃ (k : Nat) (m : CCMNodeI), nodes[k]? = some m ∧ m.id = p ∧ n.id ∈ m.children_ids.getD [])
    (hnewid : newNode.id = cid) (hnewpar : newNode.parent_id = some pn.id) :
    ∀ (j : Nat) (n : CCMNodeI) (p : NodeRef),
      (modifyIdx (appendChildRef cid) pidx nodes ++ [newNode])[j]? = some n →
      n.parent_id = some p →
      ∃ (k : Nat) (m : CCMNodeI),
        (modifyIdx (appendChildRef cid) pidx nodes ++ [newNode])[k]? = some m ∧
        m.id = p ∧ n.id ∈ m.children_ids.getD [] := by
  intro j n p hj hp
  rw [getElem?_snoc] at hj
  split at hj
  · rw [getElem?_modifyIdx] at hj
    have hstep : ∃ n0 : CCMNodeI, nodes[j]? = some n0 ∧ n0.id = n.id ∧
        n0.parent_id = some p := by
      split at hj
      · obtain ⟨n0, hn0, hfn0⟩ := Option.map_eq_some'.mp hj
        refine ⟨n0, hn0, by rw [← hfn0]; rfl, ?_⟩
        rw [← hfn0] at hp
        simpa using hp
      · exact ⟨n, hj, rfl, hp⟩
    obtain ⟨n0, hn0, hid0, hpar0⟩ := hstep
    obtain ⟨k, m, hk, hmid, hmem⟩ := hold j n0 p hn0 hpar0
    obtain ⟨m', hk', hid', hsub⟩ := witness_lift nodes pidx cid newNode hk
    exact ⟨k, m', hk', by rw [hid', hmid], by rw [← hid0]; exact hsub _ hmem⟩
  · split at hj
    · cases hj
      rw [hnewpar] at hp
      cases hp
      refine ⟨pidx, appendChildRef cid pn, ?_, rfl, ?_⟩
      · have : (modifyIdx (appendChildRef cid) pidx nodes)[pidx]? =
            some (appendChildRef cid pn) := by
          rw [getElem?_modifyIdx, if_pos rfl, hpn]; rfl
        exact getElem?_append_some _ this
      · rw [hnewid]
        simp only [appendChildRef_children]
        exact List.mem_append_right _ (List.mem_singleton.mpr rfl)
    · exact Option.noConfusion hj

/-- The same consistency preservation when only the fresh parent-less node
is appended. -/
theorem parentOk_snoc (nodes : List CCMNodeI) (newNode : CCMNodeI)
    (hold : ∀ (j : Nat) (n : CCMNodeI) (p : NodeRef), nodes[j]? = some n →
      n.parent_id = some p →
      ∃ (k : Nat) (m : CCMNodeI), nodes[k]? = some m ∧ m.id = p ∧ n.id ∈ m.children_ids.getD [])
    (hnewpar : newNode.parent_id = none) :
    ∀ (j : Nat) (n : CCMNodeI) (p : NodeRef),
      (nodes ++ [newNode])[j]? = some n → n.parent_id = some p →
      ∃ (k : Nat) (m : CCMNodeI), (nodes ++ [newNode])[k]? = some m ∧
        m.id = p ∧ n.id ∈ m.children_ids.getD [] := by
  intro j n p hj hp
  rw [getElem?_snoc] at hj
  split at hj
  · obtain ⟨k, m, hk, hmid, hmem⟩ := hold j n p hj hp
    exact ⟨k, m, getElem?_append_some _ hk, hmid, hmem⟩
  · split at hj
    · cases hj
      rw [hnewpar] at hp
      exact Option.noConfusion hp
    · exact Option.noConfusion hj

/-- A node property holding at one position survives the
modify-then-append step when it is preserved by the child append. -/
theorem exists_at_modify_snoc {P : CCMNodeI → Prop} (cid : NodeRef)
    (nodes : List CCMNodeI) (pidx : Nat) (newNode : CCMNodeI) {i : Nat} {n0 : CCMNodeI}
    (h0 : nodes[i]? = some n0) (hP : P n0)
    (hf : ∀ n : CCMNodeI, P n → P (appendChildRef cid n)) :
    ∃ n, (modifyIdx (appendChildRef cid) pidx nodes ++ [newNode])[i]? = some n ∧ P n := by
  by_cases hpi : pidx = i
  · subst hpi
    refine ⟨appendChildRef cid n0, ?_, hf n0 hP⟩
    have : (modifyIdx (appendChildRef cid) pidx nodes)[pidx]? =
        some (appendChildRef cid n0) := by
      rw [getElem?_modifyIdx, if_pos rfl, h0]; rfl
    exact getElem?_append_some _ this
  · refine ⟨n0, ?_, hP⟩
    have : (modifyIdx (appendChildRef cid) pidx nodes)[i]? = some n0 := by
      rw [getElem?_modifyIdx, if_neg hpi]; exact h0
    exact getElem?_append_some _ this

/-- A property of every node survives the modify-then-append step when the
modified node keeps it and the fresh node has it. -/
theorem all_nodes_modify_snoc {P : CCMNodeI → Prop} (cid : NodeRef)
    (nodes : List CCMNodeI) (pidx : Nat) (newNode : CCMNodeI)
    (hall : ∀ (j : Nat) (n : CCMNodeI), nodes[j]? = some n → P n)
    (hf : ∀ n : CCMNodeI, nodes[pidx]? = some n → P n → P (appendChildRef cid n))
    (hnew : P newNode) :
    ∀ (j : Nat) (n : CCMNodeI),
      (modifyIdx (appendChildRef cid) pidx nodes ++ [newNode])[j]? = some n → P n := by
  intro j n hj
  rw [getElem?_snoc] at hj
  split at hj
  · rw [getElem?_modifyIdx] at hj
    split at hj
    · obtain ⟨n0, hn0, hfn0⟩ := Option.map_eq_some'.mp hj
      rename_i hpj
      rw [← hfn0]
      exact hf n0 (hpj ▸ hn0) (hall j n0 hn0)
    · exact hall j n hj
  · split at hj
    · cases hj; exact hnew
    · exact Option.noConfusion hj

/-- A property of every node survives a plain append. -/
theorem all_nodes_snoc {P : CCMNodeI → Prop} (nodes : List CCMNodeI) (newNode : CCMNodeI)
    (hall : ∀ (j : Nat) (n : CCMNodeI), nodes[j]? = some n → P n) (hnew : P newNode) :
    ∀ (j : Nat) (n : CCMNodeI), (nodes ++ [newNode])[j]? = some n → P n := by
  intro j n hj
  rw [getElem?_snoc] at hj
  split at hj
  · exact hall j n hj
  · split at hj
    · cases hj; exact hnew
    · exact Option.noConfusion hj

theorem addClass_inv (s : P1State) (ci : ClassInfo) (h : P1Inv s) :
    P1Inv (addClass s ci) := by
  cases hm : s.module_nodes ci.module_name with
  | some pidx =>
    obtain ⟨pn, hpn, hptype⟩ := h.moduleMap _ pidx hm
    have href : refAt s.nodes pidx = pn.id := by simp [refAt, hpn]
    constructor
    · intro j n p hj hp
      simp only [addClass, hm] at hj ⊢
      exact parentOk_modify_snoc s.nodes pidx pn
        { kind := "class", num := s.nodes.length + 1 }
        (classNodeOf s.nodes.length (some (refAt s.nodes pidx)) ci)
        hpn h.parentOk rfl (by simp only [classNodeOf, href]) j n p hj hp
    · intro k i hk
      simp only [addClass, hm] at hk ⊢
      obtain ⟨n0, h0, ht⟩ := h.moduleMap k i hk
      exact exists_at_modify_snoc _ s.nodes pidx _ h0 ht (by intro n hn; simpa using hn)
    · intro k i hk
      simp only [addClass, hm, updateMap] at hk ⊢
      split at hk
      · cases hk
        refine ⟨classNodeOf s.nodes.length
          (some (refAt s.nodes pidx)) ci, ?_, rfl⟩
        rw [getElem?_snoc, length_modifyIdx]
        simp
      · obtain ⟨n0, h0, ht⟩ := h.classMap k i hk
        exact exists_at_modify_snoc _ s.nodes pidx _ h0 ht (by intro n hn; simpa using hn)
    · intro k i hk
      simp only [addClass, hm] at hk ⊢
      obtain ⟨n0, h0, ht⟩ := h.funcMap k i hk
      exact exists_at_modify_snoc _ s.nodes pidx _ h0 ht (by intro n hn; simpa using hn)
    · intro j n hj
      simp only [addClass, hm] at hj
      refine all_nodes_modify_snoc _ s.nodes pidx _
        (fun j n hn => h.commentOk j n hn) ?_ ?_ j n hj
      · intro n hn hP hc
        rw [hpn] at hn
        cases hn
        rw [appendChildRef_node_type] at hc
        rw [hc] at hptype
        exact absurd hptype (by simp)
      · intro hc
        simp [classNodeOf] at hc
  | none =>
    constructor
    · intro j n p hj hp
      simp only [addClass, hm] at hj ⊢
      exact parentOk_snoc s.nodes _ h.parentOk (by simp [classNodeOf]) j n p hj hp
    · intro k i hk
      simp only [addClass, hm] at hk ⊢
      obtain ⟨n0, h0, ht⟩ := h.moduleMap k i hk
      exact ⟨n0, getElem?_append_some _ h0, ht⟩
    · intro k i hk
      simp only [addClass, hm, updateMap] at hk ⊢
      split at hk
      · cases hk
        exact ⟨classNodeOf s.nodes.length none ci, getElem?_length_snoc _ _, rfl⟩
      · obtain ⟨n0, h0, ht⟩ := h.classMap k i hk
        exact ⟨n0, getElem?_append_some _ h0, ht⟩
    · intro k i hk
      simp only [addClass, hm] at hk ⊢
      obtain ⟨n0, h0, ht⟩ := h.funcMap k i hk
      exact ⟨n0, getElem?_append_some _ h0, ht⟩
    · intro j n hj
      simp only [addClass, hm] at hj
      refine all_nodes_snoc s.nodes _ (fun j n hn => h.commentOk j n hn) ?_ j n hj
      intro hc
      simp [classNodeOf] at hc

theorem functionNodeType_ne_comment (fi : FunctionInfo) :
    functionNodeType fi ≠ CCMNodeType.COMMENT := by
  unfold functionNodeType
  split
  · simp
  · split <;> simp

theorem addFunction_inv (s : P1State) (fi : FunctionInfo) (h : P1Inv s) :
    P1Inv (addFunction s fi) := by
  cases hcls : truthyO fi.class_name with
  | true => cases hm : s.class_nodes (fi.module_name ++ "." ++ fi.class_name.getD "") with
    | some pidx =>
      obtain ⟨pn, hpn, hptype⟩ := h.classMap _ pidx hm
      have href : refAt s.nodes pidx = pn.id := by simp [refAt, hpn]
      constructor
      · intro j n p hj hp
        simp only [addFunction, hcls, hm] at hj ⊢
        exact parentOk_modify_snoc s.nodes pidx pn
          { kind := "function", num := s.nodes.length + 1 }
          (functionNodeOf s.nodes.length (some (refAt s.nodes pidx)) fi)
          hpn h.parentOk rfl (by simp only [functionNodeOf, href]) j n p hj hp
      · intro k i hk
        simp only [addFunction, hcls, hm] at hk ⊢
        obtain ⟨n0, h0, ht⟩ := h.moduleMap k i hk
        exact exists_at_modify_snoc _ s.nodes pidx _ h0 ht (by intro n hn; simpa using hn)
      · intro k i hk
        simp only [addFunction, hcls, hm] at hk ⊢
        obtain ⟨n0, h0, ht⟩ := h.classMap k i hk
        exact exists_at_modify_snoc _ s.nodes pidx _ h0 ht (by intro n hn; simpa using hn)
      · intro k i hk
        simp only [addFunction, hcls, hm, updateMap] at hk ⊢
        split at hk
        · cases hk
          refine ⟨functionNodeOf s.nodes.length
            (some (refAt s.nodes pidx)) fi, ?_, ?_⟩
          · rw [getElem?_snoc, length_modifyIdx]
            simp
          · exact functionNodeType_ne_comment fi
        · obtain ⟨n0, h0, ht⟩ := h.funcMap k i hk
          exact exists_at_modify_snoc _ s.nodes pidx _ h0 ht (by intro n hn; simpa using hn)
      · intro j n hj
        simp only [addFunction, hcls, hm] at hj
        refine all_nodes_modify_snoc _ s.nodes pidx _
          (fun j n hn => h.commentOk j n hn) ?_ ?_ j n hj
        · intro n hn hP hc
          rw [hpn] at hn
          cases hn
          rw [appendChildRef_node_type] at hc
          rw [hc] at hptype
          exact absurd hptype (by simp)
        · intro hc
          exact absurd hc (by simpa [functionNodeOf] using functionNodeType_ne_comment fi)
    | none =>
      constructor
      · intro j n p hj hp
        simp only [addFunction, hcls, hm] at hj ⊢
        exact parentOk_snoc s.nodes _ h.parentOk (by simp [functionNodeOf]) j n p hj hp
      · intro k i hk
        simp only [addFunction, hcls, hm] at hk ⊢
        obtain ⟨n0, h0, ht⟩ := h.moduleMap k i hk
        exact ⟨n0, getElem?_append_some _ h0, ht⟩
      · intro k i hk
        simp only [addFunction, hcls, hm] at hk ⊢
        obtain ⟨n0, h0, ht⟩ := h.classMap k i hk
        exact ⟨n0, getElem?_append_some _ h0, ht⟩
      · intro k i hk
        simp only [addFunction, hcls, hm, updateMap] at hk ⊢
        split at hk
        · cases hk
          exact ⟨functionNodeOf s.nodes.length none fi, getElem?_length_snoc _ _,
            functionNodeType_ne_comment fi⟩
        · obtain ⟨n0, h0, ht⟩ := h.funcMap k i hk
          exact ⟨n0, getElem?_append_some _ h0, ht⟩
      · intro j n hj
        simp only [addFunction, hcls, hm] at hj
        refine all_nodes_snoc s.nodes _ (fun j n hn => h.commentOk j n hn) ?_ j n hj
        intro hc
        exact absurd hc (by simpa [functionNodeOf] using functionNodeType_ne_comment fi)
  | false =>
    cases hm : s.module_nodes fi.module_name with
    | some pidx =>
      obtain ⟨pn, hpn, hptype⟩ := h.moduleMap _ pidx hm
      have href : refAt s.nodes pidx = pn.id := by simp [refAt, hpn]
      constructor
      · intro j n p hj hp
        simp only [addFunction, hcls, hm] at hj ⊢
        exact parentOk_modify_snoc s.nodes pidx pn
          { kind := "function", num := s.nodes.length + 1 }
          (functionNodeOf s.nodes.length (some (refAt s.nodes pidx)) fi)
          hpn h.parentOk rfl (by simp only [functionNodeOf, href]) j n p hj hp
      · intro k i hk
        simp only [addFunction, hcls, hm] at hk ⊢
        obtain ⟨n0, h0, ht⟩ := h.moduleMap k i hk
        exact exists_at_modify_snoc _ s.nodes pidx _ h0 ht (by intro n hn; simpa using hn)
      · intro k i hk
        simp only [addFunction, hcls, hm] at hk ⊢
        obtain ⟨n0, h0, ht⟩ := h.classMap k i hk
        exact exists_at_modify_snoc _ s.nodes pidx _ h0 ht (by intro n hn; simpa using hn)
      · intro k i hk
        simp only [addFunction, hcls, hm, updateMap] at hk ⊢
        split at hk
        · cases hk
          refine ⟨functionNodeOf s.nodes.length
            (some (refAt s.nodes pidx)) fi, ?_, ?_⟩
          · rw [getElem?_snoc, length_modifyIdx]
            simp
          · exact functionNodeType_ne_comment fi
        · obtain ⟨n0, h0, ht⟩ := h.funcMap k i hk
          exact exists_at_modify_snoc _ s.nodes pidx _ h0 ht (by intro n hn; simpa using hn)
      · intro j n hj
        simp only [addFunction, hcls, hm] at hj
        refine all_nodes_modify_snoc _ s.nodes pidx _
          (fun j n hn => h.commentOk j n hn) ?_ ?_ j n hj
        · intro n hn hP hc
          rw [hpn] at hn
          cases hn
          rw [appendChildRef_node_type] at hc
          rw [hc] at hptype
          exact absurd hptype (by simp)
        · intro hc
          exact absurd hc (by simpa [functionNodeOf] using functionNodeType_ne_comment fi)
    | none =>
      constructor
      · intro j n p hj hp
        simp only [addFunction, hcls, hm] at hj ⊢
        exact parentOk_snoc s.nodes _ h.parentOk (by simp [functionNodeOf]) j n p hj hp
      · intro k i hk
        simp only [addFunction, hcls, hm] at hk ⊢
        obtain ⟨n0, h0, ht⟩ := h.moduleMap k i hk
        exact ⟨n0, getElem?_append_some _ h0, ht⟩
      · intro k i hk
        simp only [addFunction, hcls, hm] at hk ⊢
        obtain ⟨n0, h0, ht⟩ := h.classMap k i hk
        exact ⟨n0, getElem?_append_some _ h0, ht⟩
      · intro k i hk
        simp only [addFunction, hcls, hm, updateMap] at hk ⊢
        split at hk
        · cases hk
          exact ⟨functionNodeOf s.nodes.length none fi, getElem?_length_snoc _ _,
            functionNodeType_ne_comment fi⟩
        · obtain ⟨n0, h0, ht⟩ := h.funcMap k i hk
          exact ⟨n0, getElem?_append_some _ h0, ht⟩
      · intro j n hj
        simp only [addFunction, hcls, hm] at hj
        refine all_nodes_snoc s.nodes _ (fun j n hn => h.commentOk j n hn) ?_ j n hj
        intro hc
        exact absurd hc (by simpa [functionNodeOf] using functionNodeType_ne_comment fi)

theorem addComment_inv (s : P1State) (c : CommentInfo) (h : P1Inv s) :
    P1Inv (addComment s c) := by
  constructor
  · intro j n p hj hp
    simp only [addComment] at hj ⊢
    refine parentOk_snoc s.nodes _ h.parentOk (by simp [commentNodeOf]) j n p hj hp
  · intro k i hk
    simp only [addComment] at hk ⊢
    obtain ⟨n0, h0, ht⟩ := h.moduleMap k i hk
    exact ⟨n0, getElem?_append_some _ h0, ht⟩
  · intro k i hk
    simp only [addComment] at hk ⊢
    obtain ⟨n0, h0, ht⟩ := h.classMap k i hk
    exact ⟨n0, getElem?_append_some _ h0, ht⟩
  · intro k i hk
    simp only [addComment] at hk ⊢
    obtain ⟨n0, h0, ht⟩ := h.funcMap k i hk
    exact ⟨n0, getElem?_append_some _ h0, ht⟩
  · intro j n hj
    simp only [addComment] at hj
    refine all_nodes_snoc s.nodes _ (fun j n hn => h.commentOk j n hn) ?_ j n hj
    intro hc
    simp [commentNodeOf]

theorem phase1_inv (functions : List FunctionInfo) (classes : List ClassInfo)
    (modules : List ModuleInfo) (comments : List CommentInfo) :
    P1Inv (phase1 functions classes modules comments) := by
  unfold phase1
  apply foldl_inv P1Inv addComment (fun s x hs => addComment_inv s x hs)
  apply foldl_inv P1Inv addFunction (fun s x hs => addFunction_inv s x hs)
  apply foldl_inv P1Inv addClass (fun s x hs => addClass_inv s x hs)
  apply foldl_inv P1Inv addModule (fun s x hs => addModule_inv s x hs)
  exact p1inv_init

@[simp] theorem stripRels_appendRelI (rel : CCMRelationshipI) (n : CCMNodeI) :
    stripRels (appendRelI rel n) = stripRels n := rfl

@[simp] theorem appendRelI_node_type (rel : CCMRelationshipI) (n : CCMNodeI) :
    (appendRelI rel n).node_type = n.node_type := rfl

@[simp] theorem stripRels_node_type (n : CCMNodeI) :
    (stripRels n).node_type = n.node_type := rfl

/-- Appending a relationship to a non-comment node keeps the Phase 2 node
facts: everything but relationship lists still matches Phase 1, and
comment nodes still carry no relationships. -/
theorem p2nodes_modify (p1 : P1State) (s : P2State) (h : P2Inv p1 s)
    (rel : CCMRelationshipI) (mi : Nat) (pn : CCMNodeI)
    (hpn : p1.nodes[mi]? = some pn) (hpt : pn.node_type ≠ CCMNodeType.COMMENT) :
    (∀ j : Nat, ((modifyIdx (appendRelI rel) mi s.nodes)[j]?).map stripRels =
      (p1.nodes[j]?).map stripRels) ∧
    (∀ (j : Nat) (n : CCMNodeI), (modifyIdx (appendRelI rel) mi s.nodes)[j]? = some n →
      n.node_type = CCMNodeType.COMMENT → n.relationships = none) := by
  constructor
  · intro j
    rw [getElem?_modifyIdx]
    split
    · rw [← h.stable j]
      cases s.nodes[j]? <;> simp
    · exact h.stable j
  · intro j n hj hc
    rw [getElem?_modifyIdx] at hj
    split at hj
    · rename_i hmj
      subst hmj
      obtain ⟨n0, hn0, hfn0⟩ := Option.map_eq_some'.mp hj
      have hst := h.stable mi
      rw [hn0, hpn] at hst
      have htypes : n0.node_type = pn.node_type := by
        have := congrArg (fun o => (Option.map CCMNodeI.node_type o)) hst
        simpa [stripRels] using this
      rw [← hfn0, appendRelI_node_type, htypes] at hc
      exact absurd hc hpt
    · exact h.commentRels j n hj hc

/-- The relationship-list and counter facts after emitting one import or
inherit relationship: the new entry moves exactly one counter. -/
theorem p2rels_emit (p1 : P1State) (s : P2State) (h : P2Inv p1 s)
    (ty tname : String) (tgt : Option NodeRef) (hty : ty = "imports" ∨ ty = "inherits")
    (rel : CCMRelationshipI) (hrel : rel = { type := ty, target_id := tgt, target_name := tname }) :
    ((s.rels ++ [rel]).length =
      (s.resolved + (if tgt.isSome then 1 else 0)) +
      (s.unresolved + (if tgt.isSome then 0 else 1))) ∧
    (s.resolved + (if tgt.isSome then 1 else 0) =
      ((s.rels ++ [rel]).filter (fun r => r.target_id.isSome)).length) ∧
    (s.unresolved + (if tgt.isSome then 0 else 1) =
      ((s.rels ++ [rel]).filter (fun r => r.target_id.isNone)).length) ∧
    (∀ r ∈ s.rels ++ [rel], r.type = "calls" → r.target_id.isSome) ∧
    (∀ r ∈ s.rels ++ [rel], r.target_id = none →
      r.type = "imports" ∨ r.type = "inherits") := by
  have htyne : ty ≠ "calls" := by
    rcases hty with h1 | h1 <;> subst h1 <;> decide
  refine ⟨?_, ?_, ?_, ?_, ?_⟩
  · rw [List.length_append, h.counts]
    cases tgt <;> simp <;> omega
  · rw [List.filter_append, List.length_append, ← h.resCount, hrel]
    cases tgt <;> simp
  · rw [List.filter_append, List.length_append, ← h.unresCount, hrel]
    cases tgt <;> simp
  · intro r hr htype
    rcases List.mem_append.mp hr with hr | hr
    · exact h.callsResolved r hr htype
    · rw [List.mem_singleton.mp hr, hrel] at htype
      exact absurd htype htyne
  · intro r hr hnone
    rcases List.mem_append.mp hr with hr | hr
    · exact h.unresKind r hr hnone
    · rw [List.mem_singleton.mp hr, hrel]
      exact hty

theorem importStep_inv (p1 : P1State) (hp1 : P1Inv p1) (mname stmt : String)
    (s : P2State) (h : P2Inv p1 s) : P2Inv p1 (importStep p1 mname s stmt) := by
  cases hext : extract_module_name_from_import stmt with
  | none => simpa [importStep, hext] using h
  | some im =>
    by_cases him : im = ""
    · simpa [importStep, hext, him] using h
    · have hemit := p2rels_emit p1 s h "imports" im
        ((find_target_idx im p1.node_lookup {}).map (refAt s.nodes)) (Or.inl rfl)
        ⟨"imports", (find_target_idx im p1.node_lookup {}).map (refAt s.nodes), im, none⟩ rfl
      have hsome : ((find_target_idx im p1.node_lookup {}).map (refAt s.nodes)).isSome =
          (find_target_idx im p1.node_lookup {}).isSome := by
        cases find_target_idx im p1.node_lookup {} <;> rfl
      rw [hsome] at hemit
      cases hmi : p1.module_nodes mname with
      | some mi =>
        obtain ⟨pn, hpn, hpt⟩ := hp1.moduleMap mname mi hmi
        have hnodes := p2nodes_modify p1 s h
          ⟨"imports", (find_target_idx im p1.node_lookup {}).map (refAt s.nodes), im, none⟩
          mi pn hpn (by rw [hpt]; decide)
        constructor <;> simp only [importStep, hext, hmi, if_neg him]
        · exact hnodes.1
        · exact hnodes.2
        · exact hemit.1
        · exact hemit.2.1
        · exact hemit.2.2.1
        · exact hemit.2.2.2.1
        · exact hemit.2.2.2.2
      | none =>
        constructor <;> simp only [importStep, hext, hmi, if_neg him]
        · exact h.stable
        · exact h.commentRels
        · exact hemit.1
        · exact hemit.2.1
        · exact hemit.2.2.1
        · exact hemit.2.2.2.1
        · exact hemit.2.2.2.2

theorem inheritStep_inv (p1 : P1State) (hp1 : P1Inv p1) (ci : ClassInfo)
    (parent_class : String) (s : P2State) (h : P2Inv p1 s) :
    P2Inv p1 (inheritStep p1 ci s parent_class) := by
  have hemit := p2rels_emit p1 s h "inherits" parent_class
    ((find_target_idx parent_class p1.node_lookup
      { module := some ci.module_name }).map (refAt s.nodes)) (Or.inr rfl)
    ⟨"inherits", (find_target_idx parent_class p1.node_lookup
      { module := some ci.module_name }).map (refAt s.nodes), parent_class, none⟩ rfl
  have hsome : ((find_target_idx parent_class p1.node_lookup
      { module := some ci.module_name }).map (refAt s.nodes)).isSome =
      (find_target_idx parent_class p1.node_lookup { module := some ci.module_name }).isSome := by
    cases find_target_idx parent_class p1.node_lookup { module := some ci.module_name } <;> rfl
  rw [hsome] at hemit
  cases hki : p1.class_nodes (ci.module_name ++ "." ++ ci.name) with
  | some ki =>
    obtain ⟨pn, hpn, hpt⟩ := hp1.classMap _ ki hki
    have hnodes := p2nodes_modify p1 s h
      ⟨"inherits", (find_target_idx parent_class p1.node_lookup
        { module := some ci.module_name }).map (refAt s.nodes), parent_class, none⟩
      ki pn hpn (by rw [hpt]; decide)
    constructor <;> simp only [inheritStep, hki]
    · exact hnodes.1
    · exact hnodes.2
    · exact hemit.1
    · exact hemit.2.1
    · exact hemit.2.2.1
    · exact hemit.2.2.2.1
    · exact hemit.2.2.2.2
  | none =>
    constructor <;> simp only [inheritStep, hki]
    · exact h.stable
    · exact h.commentRels
    · exact hemit.1
    · exact hemit.2.1
    · exact hemit.2.2.1
    · exact hemit.2.2.2.1
    · exact hemit.2.2.2.2

theorem callStep_inv (p1 : P1State) (hp1 : P1Inv p1) (fi : FunctionInfo)
    (call : String) (s : P2State) (h : P2Inv p1 s) :
    P2Inv p1 (callStep p1 fi s call) := by
  by_cases hnoise : is_likely_builtin_call call
  · simpa [callStep, hnoise] using h
  · cases htgt : find_target_idx call p1.node_lookup
        { module := some fi.module_name, cls := fi.class_name } with
    | none => simpa [callStep, hnoise, htgt] using h
    | some i =>
      have hrels : ∀ r ∈ s.rels ++
          [(⟨"calls", some (refAt s.nodes i), call, none⟩ : CCMRelationshipI)],
          r.type = "calls" → r.target_id.isSome := by
        intro r hr _
        rcases List.mem_append.mp hr with hr | hr
        · rcases hor : r.target_id with _ | _
          · rcases h.unresKind r hr hor with h1 | h1 <;>
              · rename_i htype
                rw [htype] at h1
                exact absurd h1 (by decide)
          · rfl
        · rw [List.mem_singleton.mp hr]
          rfl
      cases hfi : p1.function_nodes (function_full_name fi) with
      | some fidx =>
        obtain ⟨pn, hpn, hpt⟩ := hp1.funcMap _ fidx hfi
        have hnodes := p2nodes_modify p1 s h
          ⟨"calls", some (refAt s.nodes i), call, none⟩ fidx pn hpn hpt
        constructor <;> simp only [callStep, htgt, hfi, if_neg hnoise]
        · exact hnodes.1
        · exact hnodes.2
        · rw [List.length_append, h.counts]
          simp
          omega
        · rw [List.filter_append, List.length_append, ← h.resCount]
          simp
        · rw [List.filter_append, List.length_append, ← h.unresCount]
          simp
        · exact hrels
        · intro r hr hnone
          rcases List.mem_append.mp hr with hr | hr
          · exact h.unresKind r hr hnone
          · rw [List.mem_singleton.mp hr] at hnone
            exact Option.noConfusion hnone
      | none =>
        constructor <;> simp only [callStep, htgt, hfi, if_neg hnoise]
        · exact h.stable
        · exact h.commentRels
        · rw [List.length_append, h.counts]
          simp
          omega
        · rw [List.filter_append, List.length_append, ← h.resCount]
          simp
        · rw [List.filter_append, List.length_append, ← h.unresCount]
          simp
        · exact hrels
        · intro r hr hnone
          rcases List.mem_append.mp hr with hr | hr
          · exact h.unresKind r hr hnone
          · rw [List.mem_singleton.mp hr] at hnone
            exact Option.noConfusion hnone

theorem p2inv_init (p1 : P1State) (hp1 : P1Inv p1) :
    P2Inv p1 { nodes := p1.nodes, rels := [], resolved := 0, unresolved := 0 } := by
  constructor
  · intro j; rfl
  · intro j n hj hc
    exact (hp1.commentOk j n hj hc).2.2.2
  · rfl
  · rfl
  · rfl
  · intro r hr; exact absurd hr (List.not_mem_nil r)
  · intro r hr; exact absurd hr (List.not_mem_nil r)

theorem phase2_inv (p1 : P1State) (hp1 : P1Inv p1) (functions : List FunctionInfo)
    (classes : List ClassInfo) (modules : List ModuleInfo) :
    P2Inv p1 (phase2 p1 functions classes modules) := by
  have hinit : P2Inv p1 { nodes := p1.nodes, rels := [], resolved := 0, unresolved := 0 } :=
    p2inv_init p1 hp1
  unfold phase2
  apply foldl_inv (P2Inv p1) _
    (fun s fi hs => foldl_inv (P2Inv p1) (callStep p1 fi)
      (fun s c hs => callStep_inv p1 hp1 fi c s hs) fi.calls s hs)
  apply foldl_inv (P2Inv p1) _
    (fun s ci hs => foldl_inv (P2Inv p1) (inheritStep p1 ci)
      (fun s pc hs => inheritStep_inv p1 hp1 ci pc s hs) ci.parent_classes s hs)
  apply foldl_inv (P2Inv p1) _
    (fun s m hs => foldl_inv (P2Inv p1) (importStep p1 m.name)
      (fun s st hs => importStep_inv p1 hp1 m.name st s hs) m.imports s hs)
  exact hinit

theorem stripRels_eq_fields {a b : CCMNodeI} (h : stripRels a = stripRels b) :
    a.id = b.id ∧ a.parent_id = b.parent_id ∧ a.children_ids = b.children_ids ∧
    a.node_type = b.node_type ∧ a.parameters = b.parameters := by
  have h1 := congrArg CCMNodeI.id h
  have h2 := congrArg CCMNodeI.parent_id h
  have h3 := congrArg CCMNodeI.children_ids h
  have h4 := congrArg CCMNodeI.node_type h
  have h5 := congrArg CCMNodeI.parameters h
  exact ⟨h1, h2, h3, h4, h5⟩

/-- Phase 2 never changes a node id: looking an id up by position gives
the same answer in the current Phase 2 state and in the Phase 1 state. -/
theorem refAt_stable (p1 : P1State) (s : P2State) (h : P2Inv p1 s) (i : Nat) :
    refAt s.nodes i = refAt p1.nodes i := by
  have hst := h.stable i
  unfold refAt
  cases hs : s.nodes[i]? with
  | none =>
    rw [hs] at hst
    cases hp : p1.nodes[i]? with
    | none => rfl
    | some n => rw [hp] at hst; exact Option.noConfusion hst
  | some n =>
    rw [hs] at hst
    cases hp : p1.nodes[i]? with
    | none => rw [hp] at hst; exact Option.noConfusion hst
    | some m =>
      rw [hp] at hst
      simp only [Option.map_some'] at hst
      exact (stripRels_eq_fields (Option.some.inj hst)).1

theorem filterMap_eq_flatMap_toList {α β : Type} (f : α → Option β) (l : List α) :
    l.filterMap f = l.flatMap (fun a => (f a).toList) := by
  induction l with
  | nil => rfl
  | cons a as ih => cases h : f a <;> simp [List.filterMap_cons, h, ih]

theorem flatMap_singleton_eq_map {α β : Type} (f : α → β) (l : List α) :
    (l.flatMap fun a => [f a]) = l.map f := by
  induction l with
  | nil => rfl
  | cons a as ih => simp [ih]

/-- A fold whose every step appends a state-independent chunk to the
relationship list appends their concatenation. -/
theorem foldl_rels_spec {α : Type} (p1 : P1State) (step : P2State → α → P2State)
    (g : α → List CCMRelationshipI)
    (hstep : ∀ (s : P2State) (x : α), P2Inv p1 s → P2Inv p1 (step s x))
    (hrels : ∀ (s : P2State) (x : α), P2Inv p1 s → (step s x).rels = s.rels ++ g x) :
    ∀ (l : List α) (s : P2State), P2Inv p1 s →
      (l.foldl step s).rels = s.rels ++ l.flatMap g := by
  intro l
  induction l with
  | nil => intro s hs; simp
  | cons x xs ih =>
    intro s hs
    rw [List.foldl_cons, ih (step s x) (hstep s x hs), hrels s x hs, List.flatMap_cons,
      List.append_assoc]

theorem importStep_rels (p1 : P1State) (mname stmt : String) (s : P2State)
    (h : P2Inv p1 s) :
    (importStep p1 mname s stmt).rels = s.rels ++ (importRelOf p1 stmt).toList := by
  cases hext : extract_module_name_from_import stmt with
  | none => simp [importStep, importRelOf, hext]
  | some im =>
    by_cases him : im = ""
    · simp [importStep, importRelOf, hext, him]
    · have hmap : (find_target_idx im p1.node_lookup {}).map (refAt s.nodes) =
          (find_target_idx im p1.node_lookup {}).map (refAt p1.nodes) := by
        cases htg : find_target_idx im p1.node_lookup {} with
        | none => rfl
        | some i => simp [refAt_stable p1 s h i]
      cases hmi : p1.module_nodes mname <;>
        simp [importStep, importRelOf, hext, him, hmi, hmap]

theorem inheritStep_rels (p1 : P1State) (ci : ClassInfo) (parent_class : String)
    (s : P2State) (h : P2Inv p1 s) :
    (inheritStep p1 ci s parent_class).rels = s.rels ++ [inheritRelOf p1 ci parent_class] := by
  have hmap : (find_target_idx parent_class p1.node_lookup
        { module := some ci.module_name }).map (refAt s.nodes) =
      (find_target_idx parent_class p1.node_lookup
        { module := some ci.module_name }).map (refAt p1.nodes) := by
    cases htg : find_target_idx parent_class p1.node_lookup
        { module := some ci.module_name } with
    | none => rfl
    | some i => simp [refAt_stable p1 s h i]
  cases hki : p1.class_nodes (ci.module_name ++ "." ++ ci.name) <;>
    simp [inheritStep, inheritRelOf, hki, hmap]

theorem callStep_rels (p1 : P1State) (fi : FunctionInfo) (call : String)
    (s : P2State) (h : P2Inv p1 s) :
    (callStep p1 fi s call).rels = s.rels ++ (callRelOf p1 fi call).toList := by
  by_cases hnoise : is_likely_builtin_call call
  · simp [callStep, callRelOf, hnoise]
  · cases htgt : find_target_idx call p1.node_lookup
        { module := some fi.module_name, cls := fi.class_name } with
    | none => simp [callStep, callRelOf, hnoise, htgt]
    | some i =>
      have hre : refAt s.nodes i = refAt p1.nodes i := refAt_stable p1 s h i
      cases hfi : p1.function_nodes (function_full_name fi) <;>
        simp [callStep, callRelOf, hnoise, htgt, hfi, hre]

/-- The flattened relationship list of Phase 2 is exactly one entry per
surviving reference, in processing order: the imports of every module,
then the parent classes of every class, then the surviving calls of every
function. -/
theorem phase2_rels_spec (p1 : P1State) (hp1 : P1Inv p1) (functions : List FunctionInfo)
    (classes : List ClassInfo) (modules : List ModuleInfo) :
    (phase2 p1 functions classes modules).rels = phase2_rels p1 functions classes modules := by
  have h0 : P2Inv p1 { nodes := p1.nodes, rels := [], resolved := 0, unresolved := 0 } :=
    p2inv_init p1 hp1
  have hstep1 : ∀ (s : P2State) (m : ModuleInfo), P2Inv p1 s →
      P2Inv p1 (m.imports.foldl (importStep p1 m.name) s) :=
    fun s m hs => foldl_inv (P2Inv p1) (importStep p1 m.name)
      (fun s st hs => importStep_inv p1 hp1 m.name st s hs) m.imports s hs
  have hrels1 : ∀ (s : P2State) (m : ModuleInfo), P2Inv p1 s →
      (m.imports.foldl (importStep p1 m.name) s).rels =
        s.rels ++ m.imports.flatMap (fun stmt => (importRelOf p1 stmt).toList) :=
    fun s m hs => foldl_rels_spec p1 (importStep p1 m.name)
      (fun stmt => (importRelOf p1 stmt).toList)
      (fun s st hs => importStep_inv p1 hp1 m.name st s hs)
      (fun s st hs => importStep_rels p1 m.name st s hs) m.imports s hs
  have hstep2 : ∀ (s : P2State) (ci : ClassInfo), P2Inv p1 s →
      P2Inv p1 (ci.parent_classes.foldl (inheritStep p1 ci) s) :=
    fun s ci hs => foldl_inv (P2Inv p1) (inheritStep p1 ci)
      (fun s pc hs => inheritStep_inv p1 hp1 ci pc s hs) ci.parent_classes s hs
  have hrels2 : ∀ (s : P2State) (ci : ClassInfo), P2Inv p1 s →
      (ci.parent_classes.foldl (inheritStep p1 ci) s).rels =
        s.rels ++ ci.parent_classes.flatMap (fun pc => [inheritRelOf p1 ci pc]) :=
    fun s ci hs => foldl_rels_spec p1 (inheritStep p1 ci)
      (fun pc => [inheritRelOf p1 ci pc])
      (fun s pc hs => inheritStep_inv p1 hp1 ci pc s hs)
      (fun s pc hs => inheritStep_rels p1 ci pc s hs) ci.parent_classes s hs
  have hstep3 : ∀ (s : P2State) (fi : FunctionInfo), P2Inv p1 s →
      P2Inv p1 (fi.calls.foldl (callStep p1 fi) s) :=
    fun s fi hs => foldl_inv (P2Inv p1) (callStep p1 fi)
      (fun s c hs => callStep_inv p1 hp1 fi c s hs) fi.calls s hs
  have hrels3 : ∀ (s : P2State) (fi : FunctionInfo), P2Inv p1 s →
      (fi.calls.foldl (callStep p1 fi) s).rels =
        s.rels ++ fi.calls.flatMap (fun call => (callRelOf p1 fi call).toList) :=
    fun s fi hs => foldl_rels_spec p1 (callStep p1 fi)
      (fun call => (callRelOf p1 fi call).toList)
      (fun s c hs => callStep_inv p1 hp1 fi c s hs)
      (fun s c hs => callStep_rels p1 fi c s hs) fi.calls s hs
  have hS1 : P2Inv p1 (modules.foldl (fun s m => m.imports.foldl (importStep p1 m.name) s)
      { nodes := p1.nodes, rels := [], resolved := 0, unresolved := 0 }) :=
    foldl_inv (P2Inv p1) _ hstep1 modules _ h0
  have hS2 : P2Inv p1 (classes.foldl (fun s ci => ci.parent_classes.foldl (inheritStep p1 ci) s)
      (modules.foldl (fun s m => m.imports.foldl (importStep p1 m.name) s)
        { nodes := p1.nodes, rels := [], resolved := 0, unresolved := 0 })) :=
    foldl_inv (P2Inv p1) _ hstep2 classes _ hS1
  have H1 := foldl_rels_spec p1 (fun s m => m.imports.foldl (importStep p1 m.name) s)
    (fun m => m.imports.flatMap (fun stmt => (importRelOf p1 stmt).toList))
    hstep1 hrels1 modules
    { nodes := p1.nodes, rels := [], resolved := 0, unresolved := 0 } h0
  have H2 := foldl_rels_spec p1 (fun s ci => ci.parent_classes.foldl (inheritStep p1 ci) s)
    (fun ci => ci.parent_classes.flatMap (fun pc => [inheritRelOf p1 ci pc]))
    hstep2 hrels2 classes _ hS1
  have H3 := foldl_rels_spec p1 (fun s fi => fi.calls.foldl (callStep p1 fi) s)
    (fun fi => fi.calls.flatMap (fun call => (callRelOf p1 fi call).toList))
    hstep3 hrels3 functions _ hS2
  unfold phase2
  rw [H3, H2, H1]
  simp only [phase2_rels, List.nil_append, List.append_assoc,
    filterMap_eq_flatMap_toList, flatMap_singleton_eq_map]

theorem build_inv (functions : List FunctionInfo) (classes : List ClassInfo)
    (modules : List ModuleInfo) (comments : List CommentInfo) :
    P2Inv (phase1 functions classes modules comments)
      (build_internal functions classes modules comments) :=
  phase2_inv _ (phase1_inv functions classes modules comments) functions classes modules

theorem length_filter_map {α β : Type} (f : α → β) (p : β → Bool) (q : α → Bool)
    (hpq : ∀ a, p (f a) = q a) (l : List α) :
    ((l.map f).filter p).length = (l.filter q).length := by
  induction l with
  | nil => rfl
  | cons a as ih =>
    simp only [List.map_cons, List.filter_cons, hpq a]
    cases q a <;> simp [ih]

theorem renderRel_type (c0 : Nat) (r : CCMRelationshipI) :
    (renderRel c0 r).type = r.type := rfl

theorem renderRel_target_empty_iff (c0 : Nat) (r : CCMRelationshipI) :
    (renderRel c0 r).target_id = "" ↔ r.target_id = none := by
  cases h : r.target_id with
  | none => simp [renderRel, h]
  | some ref => simp [renderRel, h, render_ne_empty c0 ref]

/-- Claim C2: Phase 2 emits exactly one relationship per surviving
reference, in processing order — one `imports` relationship for
every import statement whose module text extracts nonempty, kept with empty
`target_id` exactly when resolution fails; one `inherits` relationship for
every raw parent-class name, likewise retained on failure; and one `calls`
relationship for exactly those call strings that pass the noise filter and
resolve.  Consequently every failed import or inherits reference still
produces a relationship with empty `target_id` and moves the unresolved
counter (which equals the number of empty-target relationships, as the
resolved counter equals the number of nonempty-target ones and every
relationship moved exactly one counter), a failed or filtered call
produces no relationship and moves neither counter, and no emitted `calls`
relationship ever has an empty `target_id`. -/
theorem claim_C2_unresolved_imports_kept_calls_dropped :
    ∀ (c0 : Nat) (functions : List FunctionInfo) (classes : List ClassInfo)
      (modules : List ModuleInfo) (comments : List CommentInfo) (project : CCMProject)
      (R : CCMAnalysisResult) (p1 : P1State),
      R = convert_to_ccm c0 functions classes modules comments project →
      p1 = phase1 functions classes modules comments →
      (R.relationships = (phase2_rels p1 functions classes modules).map (renderRel c0)) ∧
      (∀ ci ∈ classes, ∀ pc ∈ ci.parent_classes,
        renderRel c0 (inheritRelOf p1 ci pc) ∈ R.relationships ∧
        (renderRel c0 (inheritRelOf p1 ci pc)).type = "inherits" ∧
        (renderRel c0 (inheritRelOf p1 ci pc)).target_name = pc ∧
        ((renderRel c0 (inheritRelOf p1 ci pc)).target_id = "" ↔
          find_target_idx pc p1.node_lookup { module := some ci.module_name } = none)) ∧
      (∀ m ∈ modules, ∀ stmt ∈ m.imports, ∀ im : String,
        extract_module_name_from_import stmt = some im → im ≠ "" →
        ∃ r ∈ R.relationships, r.type = "imports" ∧ r.target_name = im ∧
          (r.target_id = "" ↔ find_target_idx im p1.node_lookup {} = none)) ∧
      (∀ r ∈ R.relationships, r.type = "calls" → r.target_id ≠ "") ∧
      (∀ r ∈ R.relationships, r.target_id = "" →
        r.type = "imports" ∨ r.type = "inherits") ∧
      (R.metadata.unresolved_relationships =
        (R.relationships.filter (fun r => r.target_id = "")).length) ∧
      (R.metadata.resolved_relationships =
        (R.relationships.filter (fun r => r.target_id ≠ "")).length) ∧
      (R.metadata.total_relationships = R.relationships.length) ∧
      (R.relationships.length =
        R.metadata.resolved_relationships + R.metadata.unresolved_relationships) := by
  intro c0 fs cs ms cmts proj R p1 hR hp1def
  subst hR
  subst hp1def
  have hP1 := phase1_inv fs cs ms cmts
  have hI := build_inv fs cs ms cmts
  have hchar : (convert_to_ccm c0 fs cs ms cmts proj).relationships =
      (phase2_rels (phase1 fs cs ms cmts) fs cs ms).map (renderRel c0) := by
    show (build_internal fs cs ms cmts).rels.map (renderRel c0) = _
    have hbr : (build_internal fs cs ms cmts).rels =
        phase2_rels (phase1 fs cs ms cmts) fs cs ms :=
      phase2_rels_spec _ hP1 fs cs ms
    rw [hbr]
  refine ⟨hchar, ?_, ?_, ?_, ?_, ?_, ?_, ?_, ?_⟩
  · intro ci hci pc hpc
    refine ⟨?_, rfl, rfl, ?_⟩
    · rw [hchar]
      apply List.mem_map_of_mem
      have hin : inheritRelOf (phase1 fs cs ms cmts) ci pc ∈
          cs.flatMap (fun ci => ci.parent_classes.map
            (inheritRelOf (phase1 fs cs ms cmts) ci)) :=
        List.mem_flatMap.mpr ⟨ci, hci, List.mem_map_of_mem _ hpc⟩
      unfold phase2_rels
      exact List.mem_append_left _ (List.mem_append_right _ hin)
    · unfold inheritRelOf
      cases hf : find_target_idx pc (phase1 fs cs ms cmts).node_lookup
          { module := some ci.module_name } with
      | none => simp [renderRel, hf]
      | some i => simp [renderRel, hf, render_ne_empty]
  · intro m hm stmt hstmt im hext him
    have hio : importRelOf (phase1 fs cs ms cmts) stmt = some
        (⟨"imports", (find_target_idx im (phase1 fs cs ms cmts).node_lookup {}).map
          (refAt (phase1 fs cs ms cmts).nodes), im, none⟩ : CCMRelationshipI) := by
      simp [importRelOf, hext, him]
    refine ⟨renderRel c0
      (⟨"imports", (find_target_idx im (phase1 fs cs ms cmts).node_lookup {}).map
        (refAt (phase1 fs cs ms cmts).nodes), im, none⟩ : CCMRelationshipI),
      ?_, rfl, rfl, ?_⟩
    · rw [hchar]
      apply List.mem_map_of_mem
      have hin : (⟨"imports",
          (find_target_idx im (phase1 fs cs ms cmts).node_lookup {}).map
            (refAt (phase1 fs cs ms cmts).nodes), im, none⟩ : CCMRelationshipI) ∈
          ms.flatMap (fun m => m.imports.filterMap
            (importRelOf (phase1 fs cs ms cmts))) :=
        List.mem_flatMap.mpr ⟨m, hm, List.mem_filterMap.mpr ⟨stmt, hstmt, hio⟩⟩
      unfold phase2_rels
      exact List.mem_append_left _ (List.mem_append_left _ hin)
    · cases hf : find_target_idx im (phase1 fs cs ms cmts).node_lookup {} with
      | none => simp [renderRel, hf]
      | some i => simp [renderRel, hf, render_ne_empty]
  · intro r hr htype
    simp only [convert_to_ccm] at hr
    obtain ⟨ri, hri, hfr⟩ := List.mem_map.mp hr
    subst hfr
    have hsome := hI.callsResolved ri hri (by simpa [renderRel] using htype)
    rcases hr2 : ri.target_id with _ | ref
    · rw [hr2] at hsome
      exact absurd hsome (by decide)
    · simp [renderRel, hr2, render_ne_empty c0 ref]
  · intro r hr hempty
    simp only [convert_to_ccm] at hr
    obtain ⟨ri, hri, hfr⟩ := List.mem_map.mp hr
    subst hfr
    have hnone := (renderRel_target_empty_iff c0 ri).mp hempty
    simpa [renderRel] using hI.unresKind ri hri hnone
  · simp only [convert_to_ccm]
    rw [hI.unresCount]
    exact (length_filter_map (renderRel c0) _ _
      (by
        intro ri
        rcases h : ri.target_id with _ | ref <;>
          simp [renderRel, h, render_ne_empty c0]) _).symm
  · simp only [convert_to_ccm]
    rw [hI.resCount]
    exact (length_filter_map (renderRel c0) _ _
      (by
        intro ri
        rcases h : ri.target_id with _ | ref <;>
          simp [renderRel, h, render_ne_empty c0]) _).symm
  · simp only [convert_to_ccm, List.length_map]
  · simp only [convert_to_ccm, List.length_map]
    exact hI.counts

/-- Witness for C2 at a concrete input: the import of the external module
`requests` fails to resolve yet is retained as an `imports` relationship
with empty target id, and the unresolved counter counts both it and the
undefined parent class `Animal`. -/
theorem claim_C2_witness :
    (∃ r ∈ (convert_to_ccm 0 [fn_C2a, fn_C2b] [cls_C2]
        [mod_C2a, mod_C2b] [] projEx).relationships,
      r.type = "imports" ∧ r.target_name = "requests" ∧ r.target_id = "") ∧
    (convert_to_ccm 0 [fn_C2a, fn_C2b] [cls_C2]
      [mod_C2a, mod_C2b] [] projEx).metadata.unresolved_relationships = 2 := by
  constructor
  · obtain ⟨r, hr, h1, h2, h3⟩ :=
      (claim_C2_unresolved_imports_kept_calls_dropped 0 [fn_C2a, fn_C2b] [cls_C2]
        [mod_C2a, mod_C2b] [] projEx _ _ rfl rfl).2.2.1 mod_C2a (by decide)
        "import requests" (by decide) "requests" (by decide) (by decide)
    exact ⟨r, hr, h1, h2, h3.mpr (by decide)⟩
  · decide

/-- Claim C3: whenever at least one relationship is emitted, the metadata
field `resolution_rate` equals resolved / (resolved + unresolved) × 100;
and on the concrete input producing exactly 2 resolved and 1 unresolved
module reference, the rate rounded to one decimal is 66.7. -/
theorem claim_C3_resolution_rate :
    (∀ (c0 : Nat) (functions : List FunctionInfo) (classes : List ClassInfo)
      (modules : List ModuleInfo) (comments : List CommentInfo) (project : CCMProject)
      (R : CCMAnalysisResult),
      R = convert_to_ccm c0 functions classes modules comments project →
      R.relationships ≠ [] →
      R.metadata.resolution_rate =
        (R.metadata.resolved_relationships : ℚ) /
          ((R.metadata.resolved_relationships : ℚ) +
            (R.metadata.unresolved_relationships : ℚ)) * 100) ∧
    ((convert_to_ccm 0 [] [] mods_C3 [] projEx).metadata.resolved_relationships = 2 ∧
     (convert_to_ccm 0 [] [] mods_C3 [] projEx).metadata.unresolved_relationships = 1 ∧
     (convert_to_ccm 0 [] [] mods_C3 [] projEx).metadata.resolution_rate = 200 / 3 ∧
     round1 ((convert_to_ccm 0 [] [] mods_C3 [] projEx).metadata.resolution_rate) = 66.7) := by
  constructor
  · intro c0 fs cs ms cmts proj R hR hne
    subst hR
    have hI := build_inv fs cs ms cmts
    simp only [convert_to_ccm] at hne ⊢
    have hrne : (build_internal fs cs ms cmts).rels ≠ [] := by
      intro h0
      rw [h0] at hne
      exact hne rfl
    have hempty : (build_internal fs cs ms cmts).rels.isEmpty = false := by
      rcases h0 : (build_internal fs cs ms cmts).rels with _ | _
      · exact absurd h0 hrne
      · rfl
    rw [hempty, if_neg (by decide : ¬false = true), hI.counts]
    push_cast
    ring
  · have h1 : (build_internal [] [] mods_C3 []).resolved = 2 := by decide
    have h2 : (build_internal [] [] mods_C3 []).unresolved = 1 := by decide
    have h3 : (build_internal [] [] mods_C3 []).rels.length = 3 := by decide
    have h4 : (build_internal [] [] mods_C3 []).rels.isEmpty = false := by decide
    have hrate : (convert_to_ccm 0 [] [] mods_C3 [] projEx).metadata.resolution_rate =
        200 / 3 := by
      show (if (build_internal [] [] mods_C3 []).rels.isEmpty then (0 : ℚ)
        else ((build_internal [] [] mods_C3 []).resolved : ℚ) /
          ((build_internal [] [] mods_C3 []).rels.length : ℚ) * 100) = 200 / 3
      rw [h1, h3, h4]
      norm_num
    exact ⟨h1, h2, hrate, by rw [hrate]; rw [round1, round_eq]; norm_num⟩

/-- Witness for the general part of C3 at the concrete three-module
input. -/
theorem claim_C3_witness :
    (convert_to_ccm 0 [] [] mods_C3 [] projEx).relationships ≠ [] ∧
    (convert_to_ccm 0 [] [] mods_C3 [] projEx).metadata.resolution_rate =
      ((convert_to_ccm 0 [] [] mods_C3 [] projEx).metadata.resolved_relationships : ℚ) /
        (((convert_to_ccm 0 [] [] mods_C3 [] projEx).metadata.resolved_relationships : ℚ) +
          ((convert_to_ccm 0 [] [] mods_C3 [] projEx).metadata.unresolved_relationships : ℚ)) *
        100 :=
  ⟨by decide, claim_C3_resolution_rate.1 0 [] [] mods_C3 [] projEx _ rfl (by decide)⟩

/-- Claim C10: a run emitting zero relationships never performs the rate
division: the builder still returns, with `resolution_rate` 0 and both
counters 0. -/
theorem claim_C10_zero_relationships_rate_zero :
    ∀ (c0 : Nat) (functions : List FunctionInfo) (classes : List ClassInfo)
      (modules : List ModuleInfo) (comments : List CommentInfo) (project : CCMProject)
      (R : CCMAnalysisResult),
      R = convert_to_ccm c0 functions classes modules comments project →
      R.relationships = [] →
      R.metadata.resolution_rate = 0 ∧
      R.metadata.resolved_relationships = 0 ∧
      R.metadata.unresolved_relationships = 0 := by
  intro c0 fs cs ms cmts proj R hR hempty
  subst hR
  have hI := build_inv fs cs ms cmts
  simp only [convert_to_ccm] at hempty ⊢
  have hrels : (build_internal fs cs ms cmts).rels = [] :=
    List.map_eq_nil_iff.mp hempty
  have hcnt := hI.counts
  rw [hrels] at hcnt
  simp only [List.length_nil] at hcnt
  refine ⟨?_, ?_, ?_⟩
  · rw [hrels]
    rfl
  · omega
  · omega

/-- Witness for C10 at a concrete input: one module with no imports and
nothing else. -/
theorem claim_C10_witness :
    (convert_to_ccm 0 [] [] mods_C10 [] projEx).relationships = [] ∧
    (convert_to_ccm 0 [] [] mods_C10 [] projEx).metadata.resolution_rate = 0 ∧
    (convert_to_ccm 0 [] [] mods_C10 [] projEx).metadata.resolved_relationships = 0 ∧
    (convert_to_ccm 0 [] [] mods_C10 [] projEx).metadata.unresolved_relationships = 0 := by
  refine ⟨by decide, ?_⟩
  have h := claim_C10_zero_relationships_rate_zero 0 [] [] mods_C10 [] projEx _ rfl (by decide)
  exact ⟨h.1, h.2.1, h.2.2⟩

theorem getElem?_mem_list {l : List α} {k : Nat} {a : α} (h : l[k]? = some a) : a ∈ l := by
  induction l generalizing k with
  | nil => simp at h
  | cons x xs ih =>
    cases k with
    | zero => simp at h; simp [h]
    | succ k =>
      simp only [List.getElem?_cons_succ] at h
      exact List.mem_cons_of_mem x (ih h)

theorem mem_getElem?_list {l : List α} {a : α} (h : a ∈ l) : ∃ k : Nat, l[k]? = some a := by
  induction l with
  | nil => exact absurd h (List.not_mem_nil a)
  | cons x xs ih =>
    rcases List.mem_cons.mp h with h | h
    · exact ⟨0, by simp [h]⟩
    · obtain ⟨k, hk⟩ := ih h
      exact ⟨k + 1, by simpa using hk⟩

theorem stable_extract {s1 p1n : List CCMNodeI}
    (h : ∀ j : Nat, (s1[j]?).map stripRels = (p1n[j]?).map stripRels)
    {j : Nat} {ni : CCMNodeI} (hj : s1[j]? = some ni) :
    ∃ nj : CCMNodeI, p1n[j]? = some nj ∧ stripRels ni = stripRels nj := by
  have hh := h j
  rw [hj] at hh
  cases hpj : p1n[j]? with
  | none => rw [hpj] at hh; exact Option.noConfusion hh
  | some nj =>
    rw [hpj] at hh
    exact ⟨nj, rfl, Option.some.injEq _ _ ▸ (by simpa using hh)⟩

theorem stable_extract_back {s1 p1n : List CCMNodeI}
    (h : ∀ j : Nat, (s1[j]?).map stripRels = (p1n[j]?).map stripRels)
    {j : Nat} {nj : CCMNodeI} (hj : p1n[j]? = some nj) :
    ∃ ni : CCMNodeI, s1[j]? = some ni ∧ stripRels ni = stripRels nj := by
  have hh := h j
  rw [hj] at hh
  cases hpj : s1[j]? with
  | none => rw [hpj] at hh; exact Option.noConfusion hh
  | some ni =>
    rw [hpj] at hh
    exact ⟨ni, rfl, by simpa using hh⟩

theorem render_mem_children (c0 : Nat) (w : CCMNodeI) (r : NodeRef)
    (h : r ∈ w.children_ids.getD []) :
    render c0 r ∈ (renderNode c0 w).children_ids.getD [] := by
  cases hc : w.children_ids with
  | none => rw [hc] at h; exact absurd h (List.not_mem_nil r)
  | some l =>
    rw [hc] at h
    simp only [renderNode, hc, Option.map_some', Option.getD_some]
    exact List.mem_map_of_mem (render c0) h

/-- Claim C7: in every produced graph, `parent_id` and `children_ids` are
mutually consistent: a node with a parent id is listed among the children
ids of that parent node. -/
theorem claim_C7_parent_children_consistent :
    ∀ (c0 : Nat) (functions : List FunctionInfo) (classes : List ClassInfo)
      (modules : List ModuleInfo) (comments : List CommentInfo) (project : CCMProject)
      (R : CCMAnalysisResult),
      R = convert_to_ccm c0 functions classes modules comments project →
      ∀ n ∈ R.nodes, ∀ p : String, n.parent_id = some p →
        ∃ m ∈ R.nodes, m.id = p ∧ n.id ∈ m.children_ids.getD [] := by
  intro c0 fs cs ms cmts proj R hR n hn p hp
  subst hR
  have hP1 := phase1_inv fs cs ms cmts
  have hI := build_inv fs cs ms cmts
  simp only [convert_to_ccm] at hn ⊢
  obtain ⟨ni, hni, hfr⟩ := List.mem_map.mp hn
  subst hfr
  obtain ⟨j, hj⟩ := mem_getElem?_list hni
  obtain ⟨nj, hnj, hstr⟩ := stable_extract hI.stable hj
  obtain ⟨hid, hpar, _, _, _⟩ := stripRels_eq_fields hstr
  have hpar2 : ni.parent_id.map (render c0) = some p := by
    simpa [renderNode] using hp
  obtain ⟨q, hq, hpq⟩ := Option.map_eq_some'.mp hpar2
  have hnjq : nj.parent_id = some q := by rw [← hpar]; exact hq
  obtain ⟨k, w, hk, hwid, hmem⟩ := hP1.parentOk j nj q hnj hnjq
  obtain ⟨wk, hwk, hstrw⟩ := stable_extract_back hI.stable hk
  obtain ⟨hwid2, _, hwch, _, _⟩ := stripRels_eq_fields hstrw
  refine ⟨renderNode c0 wk, List.mem_map_of_mem _ (getElem?_mem_list hwk), ?_, ?_⟩
  · show render c0 wk.id = p
    rw [hwid2, hwid, ← hpq]
  · show render c0 ni.id ∈ (renderNode c0 wk).children_ids.getD []
    apply render_mem_children
    rw [hwch]
    rw [hid]
    exact hmem

/-- Witness for C7: on one module owning one class, the parent of the class node
is the module node, which lists the class among its children. -/
theorem claim_C7_witness :
    ∃ m ∈ (convert_to_ccm 0 [fn_C7] [cls_C7] [mod_C7] [] projEx).nodes,
      m.id = "module_000001" ∧
      "class_000002" ∈ m.children_ids.getD [] := by
  have h := claim_C7_parent_children_consistent 0 [fn_C7] [cls_C7] [mod_C7] [] projEx _ rfl
    ((convert_to_ccm 0 [fn_C7] [cls_C7] [mod_C7] [] projEx).nodes.getD 1 default)
    (by decide) "module_000001" (by decide)
  have hid : ((convert_to_ccm 0 [fn_C7] [cls_C7] [mod_C7] [] projEx).nodes.getD 1 default).id =
      "class_000002" := by decide
  rw [hid] at h
  exact h

/-- Claim C8: every comment node of the final graph has no parent id, no
children ids, no parameters and no relationships — at creation and still
after Phase 2, which only appends relationships to module, class and
function nodes. -/
theorem claim_C8_comment_nodes_bare :
    ∀ (c0 : Nat) (functions : List FunctionInfo) (classes : List ClassInfo)
      (modules : List ModuleInfo) (comments : List CommentInfo) (project : CCMProject)
      (R : CCMAnalysisResult),
      R = convert_to_ccm c0 functions classes modules comments project →
      ∀ n ∈ R.nodes, n.node_type = CCMNodeType.COMMENT →
        n.parent_id = none ∧ n.children_ids = none ∧
        n.parameters = none ∧ n.relationships = none := by
  intro c0 fs cs ms cmts proj R hR n hn htype
  subst hR
  have hP1 := phase1_inv fs cs ms cmts
  have hI := build_inv fs cs ms cmts
  simp only [convert_to_ccm] at hn
  obtain ⟨ni, hni, hfr⟩ := List.mem_map.mp hn
  subst hfr
  obtain ⟨j, hj⟩ := mem_getElem?_list hni
  obtain ⟨nj, hnj, hstr⟩ := stable_extract hI.stable hj
  obtain ⟨_, hpar, hch, hty, hparam⟩ := stripRels_eq_fields hstr
  have htype2 : ni.node_type = CCMNodeType.COMMENT := by
    simpa [renderNode] using htype
  have hbare := hP1.commentOk j nj hnj (by rw [← hty]; exact htype2)
  have hrels := hI.commentRels j ni hj htype2
  refine ⟨?_, ?_, ?_, ?_⟩
  · show ni.parent_id.map (render c0) = none
    rw [hpar, hbare.1]
    rfl
  · show ni.children_ids.map _ = none
    rw [hch, hbare.2.1]
    rfl
  · show ni.parameters = none
    rw [hparam]
    exact hbare.2.2.1
  · show ni.relationships.map _ = none
    rw [hrels]
    rfl

/-- Witness for C8: the comment node of a run with one module and one
comment is bare. -/
theorem claim_C8_witness :
    ((convert_to_ccm 0 [] [] [mod_C8] [cmt_C8] projEx).nodes.getD 1 default).node_type =
      CCMNodeType.COMMENT ∧
    ((convert_to_ccm 0 [] [] [mod_C8] [cmt_C8] projEx).nodes.getD 1 default).parent_id = none ∧
    ((convert_to_ccm 0 [] [] [mod_C8] [cmt_C8] projEx).nodes.getD 1 default).children_ids = none ∧
    ((convert_to_ccm 0 [] [] [mod_C8] [cmt_C8] projEx).nodes.getD 1 default).parameters = none ∧
    ((convert_to_ccm 0 [] [] [mod_C8] [cmt_C8] projEx).nodes.getD 1 default).relationships =
      none := by
  have h := claim_C8_comment_nodes_bare 0 [] [] [mod_C8] [cmt_C8] projEx _ rfl
    ((convert_to_ccm 0 [] [] [mod_C8] [cmt_C8] projEx).nodes.getD 1 default)
    (by decide) (by decide)
  exact ⟨by decide, h.1, h.2.1, h.2.2.1, h.2.2.2⟩

theorem stripRelationship_renderRel (c0 : Nat) (r : CCMRelationshipI) :
    stripRelationship (renderRel c0 r) =
      { type := r.type, target_id := "", target_name := r.target_name,
        metadata := r.metadata } := rfl

theorem stripNode_renderNode (c0 c1 : Nat) (n : CCMNodeI) :
    stripNode (renderNode c0 n) = stripNode (renderNode c1 n) := by
  rcases hp : n.parent_id with _ | pr <;>
  rcases hc : n.children_ids with _ | cl <;>
  rcases hr : n.relationships with _ | rl <;>
  simp [stripNode, renderNode, hp, hc, hr, List.map_map, Function.comp,
    stripRelationship_renderRel]

/-- Claim C9: graph construction is deterministic up to node ids — for one
fixed IR input, any two conversion runs (whatever the converter counter
was when each started; a fresh converter has counter 0) produce node lists
and relationship lists that agree after stripping every id-valued field. -/
theorem claim_C9_deterministic_after_strip :
    ∀ (c0 c1 : Nat) (functions : List FunctionInfo) (classes : List ClassInfo)
      (modules : List ModuleInfo) (comments : List CommentInfo) (project : CCMProject),
      ((convert_to_ccm c0 functions classes modules comments project).nodes.map stripNode =
        (convert_to_ccm c1 functions classes modules comments project).nodes.map stripNode) ∧
      ((convert_to_ccm c0 functions classes modules comments project).relationships.map
          stripRelationship =
        (convert_to_ccm c1 functions classes modules comments project).relationships.map
          stripRelationship) := by
  intro c0 c1 fs cs ms cmts proj
  constructor
  · simp only [convert_to_ccm, List.map_map]
    apply List.map_congr_left
    intro ni _
    exact stripNode_renderNode c0 c1 ni
  · simp only [convert_to_ccm, List.map_map]
    apply List.map_congr_left
    intro ri _
    show stripRelationship (renderRel c0 ri) = stripRelationship (renderRel c1 ri)
    rw [stripRelationship_renderRel, stripRelationship_renderRel]

theorem findSome?_cons_of_some {α β : Type} {f : α → Option β} {a : α} {v : β}
    (rest : List α) (h : f a = some v) : (a :: rest).findSome? f = some v := by
  simp [List.findSome?_cons, h]

/-- Claim C1 counterexample: the claim quantifies over every target name,
but for the empty target name the resolver returns "" at once
(`if not target_name:`) even when the table binds the empty key — which
Phase 1 produces for a module with an empty name.  The candidate-list
description of the claim returns the bound id instead. -/
theorem claim_C1_counterexample :
    find_target_id "" lookup_C1 {} = "" ∧
    claim_resolve "" lookup_C1 {} = "module_000001" := by
  constructor
  · rfl
  · decide

/-- Claim C1 (amended): for every nonempty target name the resolver
returns exactly what the ordered candidate-list description prescribes,
and a bare-name binding in the table always wins over every contextual
candidate; for the empty target name the resolver returns "" without
consulting the table. -/
theorem claim_C1_amended :
    (∀ (target : String) (lookup : String → Option String) (ctx : ResolveContext),
      target ≠ "" → find_target_id target lookup ctx = claim_resolve target lookup ctx) ∧
    (∀ (target : String) (lookup : String → Option String) (ctx : ResolveContext)
      (v : String),
      target ≠ "" → lookup target = some v → find_target_id target lookup ctx = v) ∧
    (∀ (lookup : String → Option String) (ctx : ResolveContext),
      find_target_id "" lookup ctx = "") := by
  refine ⟨?_, ?_, ?_⟩
  · intro t lookup ctx ht
    rw [find_target_id, if_neg ht]
    rfl
  · intro t lookup ctx v ht hv
    rw [find_target_id, if_neg ht]
    obtain ⟨rest, hfc⟩ : ∃ rest, find_candidates t ctx = t :: rest := ⟨_, rfl⟩
    rw [hfc, findSome?_cons_of_some rest hv]
  · intro lookup ctx
    rfl

/-- Witness for the amended C1: a bare-name binding wins even when a
module-qualified candidate is bound to a different id. -/
theorem claim_C1_witness :
    find_target_id "helper" lookup_C1w { module := some "m", cls := none } =
      "function_000003" :=
  claim_C1_amended.2.1 "helper" lookup_C1w { module := some "m", cls := none }
    "function_000003" (by decide) (by decide)

/-- Claim C4 counterexample: the claim describes one fixed
builtin/common-method list consulted for the text itself or its last
dotted segment; the code consults the common-method patterns only for
dotted texts, so the bare text `push` is noise per the claim but not per
the code. -/
theorem claim_C4_counterexample :
    claim_noise "push" = true ∧ is_likely_builtin_call "push" = false := by
  decide

/-- Claim C4 (amended): the noise predicate is a pure function of the call
text, true exactly when the text is in the builtin list, or contains a dot
and its last dotted segment is in the builtin or common-pattern lists, or
contains one of the characters ( ) [ ] { } + - * / =, or is at most two
characters long; and the `print` scenario holds — a function whose only
recorded call target is `print` yields zero `calls` relationships and
leaves both resolution counters at zero. -/
theorem claim_C4_amended :
    (∀ call : String,
      is_likely_builtin_call call =
        (builtin_functions.contains call
          || (strContainsChar call '.' &&
              (builtin_functions.contains (last_dot_segment call)
                || common_patterns.contains (last_dot_segment call)))
          || noise_chars.any (fun ch => strContainsChar call ch)
          || decide (call.length ≤ 2))) ∧
    (((convert_to_ccm 0 [fn_C4] [] [mod_C4] [] projEx).relationships.filter
        (fun r => r.type = "calls")) = [] ∧
      (convert_to_ccm 0 [fn_C4] [] [mod_C4] [] projEx).relationships = [] ∧
      (convert_to_ccm 0 [fn_C4] [] [mod_C4] [] projEx).metadata.resolved_relationships = 0 ∧
      (convert_to_ccm 0 [fn_C4] [] [mod_C4] [] projEx).metadata.unresolved_relationships =
        0) := by
  constructor
  · intro call
    simp only [is_likely_builtin_call]
    cases h1 : builtin_functions.contains call <;>
      cases h2 : (strContainsChar call '.' &&
        (builtin_functions.contains (last_dot_segment call)
          || common_patterns.contains (last_dot_segment call))) <;>
        cases h3 : noise_chars.any (fun ch => strContainsChar call ch) <;>
          by_cases h4 : call.length ≤ 2 <;>
            simp [h1, h2, h3, h4]
  · exact ⟨by decide, by decide, by decide, by decide⟩

/-- Claim C5 counterexample: for a method with distinct name, class and
module texts, eight distinct lookup keys are registered, not at most
six. -/
theorem claim_C5_counterexample :
    (function_lookup_keys fn_C5).dedup.length = 8 ∧
    ¬((function_lookup_keys fn_C5).dedup.length ≤ 6) := by
  decide

/-- Claim C5 (amended): at most eight lookup keys are registered per
function node — the bare name, the fully qualified name, the `class.name`
shorthand (when owned by a class) and the `module.name` shorthand, each
together with its `function:`-qualified form. -/
theorem claim_C5_amended :
    ∀ fi : FunctionInfo,
      (function_lookup_keys fi).dedup.length ≤ 8 ∧
      ∀ k ∈ function_lookup_keys fi,
        k = fi.name ∨ k = "function:" ++ fi.name ∨
        k = function_full_name fi ∨ k = "function:" ++ function_full_name fi ∨
        (∃ c, function_class_name fi = some c ∧ (k = c ∨ k = "function:" ++ c)) ∨
        k = fi.module_name ++ "." ++ fi.name ∨
        k = "function:" ++ fi.module_name ++ "." ++ fi.name := by
  intro fi
  constructor
  · have hsub := List.dedup_sublist (function_lookup_keys fi)
    have hlen := hsub.length_le
    have h8 : (function_lookup_keys fi).length ≤ 8 := by
      unfold function_lookup_keys
      rcases function_class_name fi with _ | c <;> simp
    omega
  · intro k hk
    unfold function_lookup_keys at hk
    rcases hfc : function_class_name fi with _ | c <;> rw [hfc] at hk <;> simp at hk
    · tauto
    · rcases hk with h | h | h | h | h | h | h | h
      · exact Or.inl h
      · exact Or.inr (Or.inl h)
      · exact Or.inr (Or.inr (Or.inl h))
      · exact Or.inr (Or.inr (Or.inr (Or.inl h)))
      · exact Or.inr (Or.inr (Or.inr (Or.inr (Or.inl ⟨c, rfl, Or.inl h⟩))))
      · exact Or.inr (Or.inr (Or.inr (Or.inr (Or.inl ⟨c, rfl, Or.inr h⟩))))
      · exact Or.inr (Or.inr (Or.inr (Or.inr (Or.inr (Or.inl h)))))
      · exact Or.inr (Or.inr (Or.inr (Or.inr (Or.inr (Or.inr h)))))

/-- Witness for the amended C5 at the concrete method `mill.Crane.run`. -/
theorem claim_C5_witness :
    (function_lookup_keys fn_C5).dedup.length ≤ 8 ∧
    ("Crane.run" = fn_C5.name ∨ "Crane.run" = "function:" ++ fn_C5.name ∨
     "Crane.run" = function_full_name fn_C5 ∨
     "Crane.run" = "function:" ++ function_full_name fn_C5 ∨
     (∃ c, function_class_name fn_C5 = some c ∧
       ("Crane.run" = c ∨ "Crane.run" = "function:" ++ c)) ∨
     "Crane.run" = fn_C5.module_name ++ "." ++ fn_C5.name ∨
     "Crane.run" = "function:" ++ fn_C5.module_name ++ "." ++ fn_C5.name) :=
  ⟨(claim_C5_amended fn_C5).1, (claim_C5_amended fn_C5).2 "Crane.run" (by decide)⟩

/-- Claim C6 counterexample: the implemented skip condition is on the
length of the stripped content, not on the number of non-whitespace
characters: the content `a________b` (with 8 blanks) has 2 non-whitespace
characters yet is not skipped, and the downstream analyzers run on it. -/
theorem claim_C6_counterexample :
    count_non_ws "a        b" = 2 ∧ (2 : Nat) < 10 ∧
    skips_file "a        b" = false ∧
    analyze_file_content analyzer_C6 "a        b" = some fa_C6 := by
  decide

/-- Claim C6 (amended): per-file analysis is skipped exactly for files
whose content, after stripping leading and trailing whitespace, has fewer
than 10 characters; a skipped file contributes no IR at all, whatever the
downstream extractors would have produced. -/
theorem claim_C6_amended :
    ∀ (analyzer : String → Option FileAnalysis) (content : String),
      (pythonStrip content).length < 10 →
      skips_file content = true ∧ analyze_file_content analyzer content = none := by
  intro g content h
  constructor
  · simp [skips_file, h]
  · simp [analyze_file_content, h]

/-- Witness for the amended C6 at a two-character file. -/
theorem claim_C6_witness :
    (pythonStrip "hi").length < 10 ∧
    (skips_file "hi" = true ∧ analyze_file_content analyzer_C6 "hi" = none) :=
  ⟨by decide, claim_C6_amended analyzer_C6 "hi" (by decide)⟩
